import Mathlib

/-!
Verification development for the flun-html-template engine.

The engine's core (templateService) is a text-based template processor:
a block scanner and compositor, a recursive include resolver, an iterative
variable/conditional/loop pipeline built on regex rewriting, and a sandboxed
expression evaluator.  This file shallowly embeds those functions over
`Str := List Char` and proves properties about them.

JavaScript regexes are embedded as an explicit backtracking matcher
(`runF`) over a regex AST (`Re`), with JS semantics: alternation tries the
left branch first, greedy quantifiers try longer matches first, lazy
quantifiers shorter first, a repetition never repeats an empty match, and
capture groups record the last traversed span on the successful path.
`runF` is fuel-indexed so that it is structurally recursive (and hence
computable by `decide`); the wrapper `reRun` supplies fuel that dominates
the depth of the backtracking call tree (each `seq`/`alt`/... level costs
one unit and each quantifier iteration, which must consume at least one
character, costs one more, so `(size + 1) * (length + 2)` is enough).
-/

/-- Template text, embedded as a list of characters. -/
abbrev Str := List Char

/-- JavaScript `\s` (the whitespace class used by the source's regexes). -/
def jsSpace (c : Char) : Bool :=
  c == ' ' || c == '\t' || c == '\n' || c == '\r' || c == '\x0b' || c == '\x0c' ||
  c == '\u00A0' || c == '\uFEFF'

/-- JavaScript `\w`: ASCII letters, digits and underscore. -/
def wordChar (c : Char) : Bool :=
  c.isAlpha || c.isDigit || c == '_'

/-- Regex AST.  `star'`/`opt'` carry `true` for lazy (`*?` / `??`) variants;
`group n` is the n-th (1-based) capture group; `look` is a zero-width
lookahead `(?=...)`. -/
inductive Re where
  | eps : Re
  | lit : Char → Re
  | cls : (Char → Bool) → Re
  | seq : Re → Re → Re
  | alt : Re → Re → Re
  | star' : Bool → Re → Re
  | opt' : Bool → Re → Re
  | group : Nat → Re → Re
  | look : Re → Re

/-- Capture list: position `i` holds group `i+1`'s text, `none` = undefined. -/
abbrev Caps := List (Option Str)

/-- Record capture group `i` (1-based). -/
def setCap (i : Nat) (v : Str) (cp : Caps) : Caps := cp.set (i - 1) (some v)

/-- Size of a regex, used to compute sufficient matcher fuel. -/
def Re.size : Re → Nat
  | .eps => 1
  | .lit _ => 1
  | .cls _ => 1
  | .seq a b => a.size + b.size + 1
  | .alt a b => a.size + b.size + 1
  | .star' _ a => a.size + 1
  | .opt' _ a => a.size + 1
  | .group _ a => a.size + 1
  | .look a => a.size + 1

/-- Backtracking matcher.  `runF fuel re s cp` returns the candidate
continuations `(rest, caps)` of matching `re` at the head of `s`, in JS
priority order (first element = the match JS commits to).  A quantifier
iteration that consumes nothing is not repeated (JS's empty-repetition
rule; every starred body in the source's regexes consumes at least one
character, so this agrees with JS on them). -/
def runF : Nat → Re → Str → Caps → List (Str × Caps)
  | 0, _, _, _ => []
  | f + 1, re, s, cp =>
    match re with
    | .eps => [(s, cp)]
    | .lit c =>
      match s with
      | [] => []
      | c' :: t => if c' = c then [(t, cp)] else []
    | .cls p =>
      match s with
      | [] => []
      | c' :: t => if p c' then [(t, cp)] else []
    | .seq a b => (runF f a s cp).flatMap (fun r => runF f b r.1 r.2)
    | .alt a b => runF f a s cp ++ runF f b s cp
    | .opt' lz a => if lz then (s, cp) :: runF f a s cp else runF f a s cp ++ [(s, cp)]
    | .star' lz a =>
      let more := (runF f a s cp).flatMap (fun r =>
        if r.1.length < s.length then runF f (.star' lz a) r.1 r.2 else [])
      if lz then (s, cp) :: more else more ++ [(s, cp)]
    | .group i a =>
      (runF f a s cp).map (fun r => (r.1, setCap i (s.take (s.length - r.1.length)) r.2))
    | .look a => if (runF f a s cp).isEmpty then [] else [(s, cp)]

/-- Run a regex at the head of `s` with fresh captures and sufficient fuel. -/
def reRun (re : Re) (nc : Nat) (s : Str) : List (Str × Caps) :=
  runF ((re.size + 1) * (s.length + 2)) re s (List.replicate nc none)

/-- Core of JS `String.replace` with a `/g` regex: scan left to right, at
each position commit to the matcher's first candidate, splice in the
callback's text and continue after the match; on no match (or an empty
match, which the source's regexes cannot produce) emit one character and
advance.  The callback's second component is or-ed into a flag (used by the
conditional phase's `hasChanges`). -/
def replaceAllCore (re : Re) (nc : Nat) (f : Str → Caps → Str × Bool) :
    Nat → Str → Str × Bool
  | 0, s => (s, false)
  | fuel + 1, s =>
    match (reRun re nc s).head? with
    | some r =>
      if r.1.length < s.length then
        let fr := f (s.take (s.length - r.1.length)) r.2
        let rest := replaceAllCore re nc f fuel r.1
        (fr.1 ++ rest.1, fr.2 || rest.2)
      else
        match s with
        | [] => ([], false)
        | c :: t =>
          let rest := replaceAllCore re nc f fuel t
          (c :: rest.1, rest.2)
    | none =>
      match s with
      | [] => ([], false)
      | c :: t =>
        let rest := replaceAllCore re nc f fuel t
        (c :: rest.1, rest.2)

/-- JS `content.replace(re, f)` for a `/g` regex. -/
def replaceAll (re : Re) (nc : Nat) (f : Str → Caps → Str) (s : Str) : Str :=
  (replaceAllCore re nc (fun m cp => (f m cp, false)) (s.length + 1) s).1

/-- `replaceAll` that also reports whether any callback raised its flag. -/
def replaceAllFlag (re : Re) (nc : Nat) (f : Str → Caps → Str × Bool) (s : Str) :
    Str × Bool :=
  replaceAllCore re nc f (s.length + 1) s

/-- Core of JS `String.matchAll`: the list of `(index, fullMatch, caps)`. -/
def matchAllF (re : Re) (nc : Nat) : Nat → Nat → Str → List (Nat × Str × Caps)
  | 0, _, _ => []
  | fuel + 1, idx, s =>
    match (reRun re nc s).head? with
    | some r =>
      if r.1.length < s.length then
        (idx, s.take (s.length - r.1.length), r.2) ::
          matchAllF re nc fuel (idx + (s.length - r.1.length)) r.1
      else
        match s with
        | [] => []
        | _ :: t => matchAllF re nc fuel (idx + 1) t
    | none =>
      match s with
      | [] => []
      | _ :: t => matchAllF re nc fuel (idx + 1) t

/-- JS `content.matchAll(re)`. -/
def matchAll (re : Re) (nc : Nat) (s : Str) : List (Nat × Str × Caps) :=
  matchAllF re nc (s.length + 1) 0 s

/-- Helper for JS `regex.test`: does the regex match at any position? -/
def testFrom (re : Re) (nc : Nat) : Nat → Str → Bool
  | 0, _ => false
  | fuel + 1, s =>
    !(reRun re nc s).isEmpty ||
      (match s with
       | [] => false
       | _ :: t => testFrom re nc fuel t)

/-- JS `regex.test(content)` (after `lastIndex` reset). -/
def reTest (re : Re) (nc : Nat) (s : Str) : Bool :=
  testFrom re nc (s.length + 1) s

/-- Right-nested sequence of a list of regexes. -/
def seqL : List Re → Re
  | [] => .eps
  | [r] => r
  | r :: t => .seq r (seqL t)

/-- Literal string as a regex (case sensitive). -/
def lits : List Char → Re
  | [] => .eps
  | [c] => .lit c
  | c :: t => .seq (.lit c) (lits t)

/-- Case-insensitive single character (for regexes with the `i` flag). -/
def ciChar (c : Char) : Re := .cls (fun x => x.toLower == c)

/-- Case-insensitive literal string. -/
def litsCI : List Char → Re
  | [] => .eps
  | [c] => ciChar c
  | c :: t => .seq (ciChar c) (litsCI t)

/-- Literal string regex from a Lean string literal. -/
def litStr (s : String) : Re := lits s.toList

/-- Case-insensitive literal string regex. -/
def ciStr (s : String) : Re := litsCI s.toList

/-- `x+` (greedy when `lz = false`, `x+?` when `lz = true`). -/
def plus (lz : Bool) (a : Re) : Re := .seq a (.star' lz a)

/-- `[\s\S]` and `.` (dot does not match line terminators). -/
def anyCh : Re := .cls (fun _ => true)

/-- JS `.` without the `s` flag: any char except line terminators. -/
def dotCh : Re := .cls (fun c => !(c == '\n' || c == '\r' || c == '\u2028' || c == '\u2029'))

/-- `[^}]`. -/
def notRBrace : Re := .cls (fun c => !(c == '}'))

/-- `[^\]]`. -/
def notRBracket : Re := .cls (fun c => !(c == ']'))

/-- `\s` as a regex atom. -/
def spaceCls : Re := .cls jsSpace

/-- `\w` as a regex atom. -/
def wordCls : Re := .cls wordChar

/-!
## The source's precompiled regexes (templateService lines 24-32)

Each definition transliterates one regex literal; `ciStr` is used for the
letters of regexes carrying the `i` flag.
-/

/-- `includeRegex = /(\"|')\[include\s+([^\]]+)\](\"|')|\[include\s+([\S\s]+?)\]/gi` -/
def includeRegex : Re :=
  .alt
    (seqL [.group 1 (.alt (.lit '"') (.lit '\'')),
           .lit '[', ciStr "include", plus false spaceCls,
           .group 2 (plus false notRBracket),
           .lit ']', .group 3 (.alt (.lit '"') (.lit '\''))])
    (seqL [.lit '[', ciStr "include", plus false spaceCls,
           .group 4 (plus true anyCh), .lit ']'])

/-- `quotedVarRegex = /`\s*{{(.*?)}}\s*`/g` -/
def quotedVarRegex : Re :=
  seqL [.lit '`', .star' false spaceCls, .lit '{', .lit '{',
        .group 1 (.star' true dotCh), .lit '}', .lit '}', .star' false spaceCls, .lit '`']

/-- `userFuncRegex = /\{\{\s*user:\s*([^\s()]+?)\s*\(([^)]*)\)\s*\}\}/g` -/
def userFuncRegex : Re :=
  seqL [.lit '{', .lit '{', .star' false spaceCls, litStr "user:", .star' false spaceCls,
        .group 1 (plus true (.cls (fun c => !(jsSpace c || c == '(' || c == ')')))),
        .star' false spaceCls, .lit '(',
        .group 2 (.star' false (.cls (fun c => !(c == ')')))),
        .lit ')', .star' false spaceCls, .lit '}', .lit '}']

/-- `templateTagRegex = /\[!([^\]]*?)\]|\[\~([^\]]*?)\]/g` -/
def templateTagRegex : Re :=
  .alt
    (seqL [.lit '[', .lit '!', .group 1 (.star' true notRBracket), .lit ']'])
    (seqL [.lit '[', .lit '~', .group 2 (.star' true notRBracket), .lit ']'])

/-- `IfRegex = /\{\{if\s+([^}]+)\}\}([\s\S]*?)((?:\{\{else\s+if[^}]*\}\}[\s\S]*?)*)(?:\{\{else\}\}([\s\S]*?))?\{\{endif\}\}/gi` -/
def ifRegex : Re :=
  seqL [.lit '{', .lit '{', ciStr "if", plus false spaceCls,
        .group 1 (plus false notRBrace), .lit '}', .lit '}',
        .group 2 (.star' true anyCh),
        .group 3 (.star' false
          (seqL [.lit '{', .lit '{', ciStr "else", plus false spaceCls, ciStr "if",
                 .star' false notRBrace, .lit '}', .lit '}', .star' true anyCh])),
        .opt' false (seqL [.lit '{', .lit '{', ciStr "else", .lit '}', .lit '}',
                           .group 4 (.star' true anyCh)]),
        .lit '{', .lit '{', ciStr "endif", .lit '}', .lit '}']

/-- `elseIfRegex = /\{\{else\s+if\s+([^}]*)\}\}([\s\S]*?)(?=\{\{(?:else\s+if|else|endif)\}\})/gi` -/
def elseIfRegex : Re :=
  seqL [.lit '{', .lit '{', ciStr "else", plus false spaceCls, ciStr "if", plus false spaceCls,
        .group 1 (.star' false notRBrace), .lit '}', .lit '}',
        .group 2 (.star' true anyCh),
        .look (seqL [.lit '{', .lit '{',
                     .alt (seqL [ciStr "else", plus false spaceCls, ciStr "if"])
                          (.alt (ciStr "else") (ciStr "endif")),
                     .lit '}', .lit '}'])]

/-- `forRegex = /\{\{for\s+(\w+)\s+in\s+([^}]+)\}\}([\s\S]*?)(?:\{\{empty\}\}([\s\S]*?))?\{\{endfor\}\}/gi` -/
def forRegex : Re :=
  seqL [.lit '{', .lit '{', ciStr "for", plus false spaceCls,
        .group 1 (plus false wordCls), plus false spaceCls, ciStr "in", plus false spaceCls,
        .group 2 (plus false notRBrace), .lit '}', .lit '}',
        .group 3 (.star' true anyCh),
        .opt' false (seqL [.lit '{', .lit '{', ciStr "empty", .lit '}', .lit '}',
                           .group 4 (.star' true anyCh)]),
        .lit '{', .lit '{', ciStr "endfor", .lit '}', .lit '}']

/-- `forKeyValueRegex = /\{\{for\s+(\w+)\s*,\s*(\w+)\s+in\s+([^}]+)\}\}([\s\S]*?)(?:\{\{empty\}\}([\s\S]*?))?\{\{endfor\}\}/gi` -/
def forKeyValueRegex : Re :=
  seqL [.lit '{', .lit '{', ciStr "for", plus false spaceCls,
        .group 1 (plus false wordCls), .star' false spaceCls, .lit ',', .star' false spaceCls,
        .group 2 (plus false wordCls), plus false spaceCls, ciStr "in", plus false spaceCls,
        .group 3 (plus false notRBrace), .lit '}', .lit '}',
        .group 4 (.star' true anyCh),
        .opt' false (seqL [.lit '{', .lit '{', ciStr "empty", .lit '}', .lit '}',
                           .group 5 (.star' true anyCh)]),
        .lit '{', .lit '{', ciStr "endfor", .lit '}', .lit '}']

/-- `objectPropertyRegex = /\{\{(\w+\.\w+(?:\.\w+)*)\}\}/g` -/
def objectPropertyRegex : Re :=
  seqL [.lit '{', .lit '{',
        .group 1 (seqL [plus false wordCls, .lit '.', plus false wordCls,
                        .star' false (.seq (.lit '.') (plus false wordCls))]),
        .lit '}', .lit '}']

/-- `expressionRegex = /\{\{([^}]+)\}\}/g` -/
def expressionRegex : Re :=
  seqL [.lit '{', .lit '{', .group 1 (plus false notRBrace), .lit '}', .lit '}']

/-- `breakRegex = /\{\{\s*break\s*\}\}/g` -/
def breakRegex : Re :=
  seqL [.lit '{', .lit '{', .star' false spaceCls, litStr "break", .star' false spaceCls,
        .lit '}', .lit '}']

/-- `continueRegex = /\{\{\s*continue\s*\}\}/g` -/
def continueRegex : Re :=
  seqL [.lit '{', .lit '{', .star' false spaceCls, litStr "continue", .star' false spaceCls,
        .lit '}', .lit '}']

/-- The dynamically built per-variable regex `new RegExp('{{\\s*' + escaped key + '\\s*}}', 'g')`
of the simple-variable substitution (the `_escapeRegExp` call makes the key
match literally, which `lits` does directly). -/
def simpleVarRegex (key : Str) : Re :=
  seqL [.lit '{', .lit '{', .star' false spaceCls, lits key, .star' false spaceCls,
        .lit '}', .lit '}']

/-!
## JavaScript values, contexts, and the sandboxed expression evaluator

`JSVal` models the JS values templates manipulate; numbers are modelled as
integers (no claim exercises floats/NaN).  A JS object is modelled as an
insertion-ordered association list with unique keys (`Ctx`); `ctxSet`
models property assignment (overriding keeps the original position, as JS
object spread does) and `ctxMerge` models `{...a, ...b}`.
-/

/-- Shorthand: the character list of a string literal. -/
def strL (s : String) : Str := s.toList

/-- JS values. `builtin` tags the members of the sandbox's fixed
safe-function set (`String`, `Math`, `and`, `gt`, ...). -/
inductive JSVal where
  | undef : JSVal
  | null : JSVal
  | bool : Bool → JSVal
  | num : Int → JSVal
  | str : Str → JSVal
  | arr : List JSVal → JSVal
  | obj : List (Str × JSVal) → JSVal
  | builtin : Str → JSVal

instance : Inhabited JSVal := ⟨JSVal.undef⟩

mutual

/-- Structural size of a value (fuel bound for `jsonStringifyF`). -/
def jsvalFuel : JSVal → Nat
  | .arr xs => jsvalFuelL xs + 1
  | .obj fs => jsvalFuelK fs + 1
  | _ => 1

/-- Size of a list of values. -/
def jsvalFuelL : List JSVal → Nat
  | [] => 1
  | x :: t => jsvalFuel x + jsvalFuelL t + 1

/-- Size of a field list. -/
def jsvalFuelK : List (Str × JSVal) → Nat
  | [] => 1
  | e :: t => jsvalFuel e.2 + jsvalFuelK t + 1

end

/-- A JS object / variable context: insertion-ordered fields. -/
abbrev Ctx := List (Str × JSVal)

/-- Property read. -/
def ctxGet (ctx : Ctx) (k : Str) : Option JSVal :=
  (ctx.find? (fun e => e.1 == k)).map (fun e => e.2)

/-- Property write: override in place, or append a new key. -/
def ctxSet (ctx : Ctx) (k : Str) (v : JSVal) : Ctx :=
  if ctx.any (fun e => e.1 == k) then ctx.map (fun e => if e.1 == k then (k, v) else e)
  else ctx ++ [(k, v)]

/-- JS `{...a, ...b}`. -/
def ctxMerge (a b : Ctx) : Ctx := b.foldl (fun acc e => ctxSet acc e.1 e.2) a

/-- `unsafeKeys` (templateService line 35). -/
def unsafeKeys : List Str :=
  [strL "__proto__", strL "constructor", strL "prototype", strL "then", strL "toString",
   strL "valueOf", strL "Object", strL "Function", strL "Promise"]

/-- JS truthiness (no NaN in the integer number model). -/
def truthy : JSVal → Bool
  | .undef => false
  | .null => false
  | .bool b => b
  | .num n => !(n == 0)
  | .str s => !s.isEmpty
  | .arr _ => true
  | .obj _ => true
  | .builtin _ => true

/-- JSON string escaping (the characters relevant to template values). -/
def jsonEscapeChar (c : Char) : Str :=
  if c == '"' then ['\\', '"']
  else if c == '\\' then ['\\', '\\']
  else if c == '\n' then ['\\', 'n']
  else if c == '\r' then ['\\', 'r']
  else if c == '\t' then ['\\', 't']
  else [c]

/-- `JSON.stringify`; `none` models JS's `undefined` result (for `undefined`
and function values).  Undefined array elements render as `null`, undefined
object fields are omitted, as in JS. -/
def jsonStringifyF : Nat → JSVal → Option Str
  | 0, _ => none
  | _ + 1, .undef => none
  | _ + 1, .null => some (strL "null")
  | _ + 1, .bool b => some (strL (if b then "true" else "false"))
  | _ + 1, .num n => some (toString n).toList
  | _ + 1, .str s => some ('"' :: s.flatMap jsonEscapeChar ++ ['"'])
  | f + 1, .arr xs =>
    some ('[' :: (List.intercalate [','] (xs.map (fun x => (jsonStringifyF f x).getD (strL "null")))) ++ [']'])
  | f + 1, .obj fs =>
    some ('{' :: (List.intercalate [',']
      (fs.filterMap (fun e =>
        (jsonStringifyF f e.2).map (fun v => ('"' :: e.1.flatMap jsonEscapeChar ++ ['"', ':']) ++ v)))) ++ ['}'])
  | _ + 1, .builtin _ => none

/-- `JSON.stringify` with sufficient fuel. -/
def jsonStringify (v : JSVal) : Option Str := jsonStringifyF (jsvalFuel v) v

/-- `_safeToString` (lines 72-84): null/undefined give `''`; objects and
arrays give best-effort JSON; other values their natural string form.
(`builtin` values — host functions/objects — are not exercised by any
claim and render as `''`.) -/
def safeToString : JSVal → Str
  | .null => []
  | .undef => []
  | .arr xs => (jsonStringify (.arr xs)).getD []
  | .obj fs => (jsonStringify (.obj fs)).getD []
  | .builtin _ => []
  | .bool b => strL (if b then "true" else "false")
  | .num n => (toString n).toList
  | .str s => s

/-- Split on a separator character (JS `String.split`). -/
def splitOnChar (sep : Char) : Str → List Str
  | [] => [[]]
  | c :: t =>
    let r := splitOnChar sep t
    if c == sep then [] :: r
    else
      match r with
      | h :: t2 => (c :: h) :: t2
      | [] => [[c]]

/-- Canonical array-index string (`"0"`, `"12"`, but not `"08"`). -/
def canonIndex? : Str → Option Nat
  | [] => none
  | ['0'] => some 0
  | c :: t =>
    if c.isDigit && !(c == '0') && t.all Char.isDigit then
      some ((c :: t).foldl (fun n d => n * 10 + (d.toNat - 48)) 0)
    else none

/-- JS own-property lookup (`Object.hasOwnProperty.call(v, k) ? v[k] : ⊥`):
objects own their fields; arrays own their canonical indices and `length`;
boxed strings own their indices and `length`; other values own nothing. -/
def ownProp : JSVal → Str → Option JSVal
  | .obj fs, k => (fs.find? (fun e => e.1 == k)).map (fun e => e.2)
  | .arr xs, k =>
    if k == strL "length" then some (.num xs.length)
    else (canonIndex? k).bind (fun n => xs.get? n)
  | .str s, k =>
    if k == strL "length" then some (.num s.length)
    else (canonIndex? k).bind (fun n => (s.get? n).map (fun c => .str [c]))
  | _, _ => none

/-- `_getValueByPath` (lines 652-658): walk the dotted path one segment at
a time; null/undefined, an unsafe segment, or a non-own property stop the
walk with `undefined`. -/
def getValueByPath (o : JSVal) (path : Str) : JSVal :=
  (splitOnChar '.' path).foldl
    (fun current key =>
      match current with
      | .null => .undef
      | .undef => .undef
      | v =>
        if unsafeKeys.contains key then .undef
        else
          match ownProp v key with
          | some w => w
          | none => .undef)
    o

/-!
## The sandboxed expression evaluator (`_evaluateExpression`, lines 670-717)

The source evaluates `(${expr})` with `vm.runInContext` in a context built
from `_createSafeSandbox(variables)` with `process`/`global`/timers/
`Buffer`/`require` explicitly bound to `undefined` and `console` to an
empty prototype-less object, catching every error (syntax, runtime,
timeout) and returning `null`.

Full JavaScript cannot be embedded; the evaluator is modelled on the
fragment template expressions use: integer and string literals,
identifiers, member access, calls, and the binary operators
`> < >= <= + - * === !== == !=`.  Unsupported syntax is a parse error and
unsupported coercions are runtime errors — both of which the wrapper turns
into `null`, exactly as the source's catch-all does.  The model is total,
so "never throws to the caller" and "performs no host I/O" hold by
construction; the 1.5 s wall-clock timeout needs no counterpart in a total
model (a timeout is one more caught error yielding `null`).
-/

/-- Binary operators of the modelled fragment. -/
inductive BinOp where
  | gt : BinOp
  | lt : BinOp
  | ge : BinOp
  | le : BinOp
  | add : BinOp
  | sub : BinOp
  | mul : BinOp
  | eq3 : BinOp
  | neq3 : BinOp
  | eq2 : BinOp
  | neq2 : BinOp
deriving DecidableEq

/-- Expression AST of the modelled JS fragment. -/
inductive JSExpr where
  | numLit : Int → JSExpr
  | strLit : Str → JSExpr
  | boolLit : Bool → JSExpr
  | nullLit : JSExpr
  | undefLit : JSExpr
  | ident : Str → JSExpr
  | member : JSExpr → Str → JSExpr
  | call : JSExpr → List JSExpr → JSExpr
  | bin : BinOp → JSExpr → JSExpr → JSExpr

/-- Tokens. -/
inductive Tok where
  | tnum : Int → Tok
  | tstr : Str → Tok
  | tid : Str → Tok
  | tdot : Tok
  | tlp : Tok
  | trp : Tok
  | tcomma : Tok
  | top : BinOp → Tok

/-- Identifier start character. -/
def identStart (c : Char) : Bool := c.isAlpha || c == '_' || c == '$'

/-- Identifier continuation character. -/
def identChar (c : Char) : Bool := identStart c || c.isDigit

/-- Tokenizer (fuel-structural; one step consumes at least one character).
Floating-point literals and syntax outside the fragment tokenize to
`none` (= SyntaxError). -/
def tokenizeF : Nat → Str → Option (List Tok)
  | 0, _ => none
  | _ + 1, [] => some []
  | f + 1, c :: t =>
    if jsSpace c then tokenizeF f t
    else if c.isDigit then
      let ds := List.takeWhile Char.isDigit (c :: t)
      let rest := List.dropWhile Char.isDigit (c :: t)
      match rest with
      | '.' :: _ => none
      | r :: _ =>
        if identStart r then none
        else (tokenizeF f rest).map (.tnum (Int.ofNat (ds.foldl (fun n d => n * 10 + (d.toNat - 48)) 0)) :: ·)
      | [] => (tokenizeF f rest).map (.tnum (Int.ofNat (ds.foldl (fun n d => n * 10 + (d.toNat - 48)) 0)) :: ·)
    else if identStart c then
      (tokenizeF f (List.dropWhile identChar (c :: t))).map
        (.tid (List.takeWhile identChar (c :: t)) :: ·)
    else if c == '"' || c == '\'' then
      let body := t.takeWhile (fun x => !(x == c))
      match t.dropWhile (fun x => !(x == c)) with
      | _ :: rest => (tokenizeF f rest).map (.tstr body :: ·)
      | [] => none
    else
      match c :: t with
      | '=' :: '=' :: '=' :: r => (tokenizeF f r).map (.top .eq3 :: ·)
      | '=' :: '=' :: r => (tokenizeF f r).map (.top .eq2 :: ·)
      | '!' :: '=' :: '=' :: r => (tokenizeF f r).map (.top .neq3 :: ·)
      | '!' :: '=' :: r => (tokenizeF f r).map (.top .neq2 :: ·)
      | '>' :: '=' :: r => (tokenizeF f r).map (.top .ge :: ·)
      | '>' :: r => (tokenizeF f r).map (.top .gt :: ·)
      | '<' :: '=' :: r => (tokenizeF f r).map (.top .le :: ·)
      | '<' :: r => (tokenizeF f r).map (.top .lt :: ·)
      | '+' :: r => (tokenizeF f r).map (.top .add :: ·)
      | '-' :: r => (tokenizeF f r).map (.top .sub :: ·)
      | '*' :: r => (tokenizeF f r).map (.top .mul :: ·)
      | '(' :: r => (tokenizeF f r).map (.tlp :: ·)
      | ')' :: r => (tokenizeF f r).map (.trp :: ·)
      | ',' :: r => (tokenizeF f r).map (.tcomma :: ·)
      | '.' :: r => (tokenizeF f r).map (.tdot :: ·)
      | _ => none

/-- Precedence level of a binary operator (JS: equality < relational <
additive < multiplicative). -/
def opLevel : BinOp → Nat
  | .eq3 => 0
  | .neq3 => 0
  | .eq2 => 0
  | .neq2 => 0
  | .gt => 1
  | .lt => 1
  | .ge => 1
  | .le => 1
  | .add => 2
  | .sub => 2
  | .mul => 3

mutual

/-- Precedence-climbing expression parse (fuel-structural). -/
def parseLevel : Nat → Nat → List Tok → Option (JSExpr × List Tok)
  | 0, _, _ => none
  | f + 1, lvl, ts =>
    if lvl ≥ 4 then parsePost f ts
    else
      match parseLevel f (lvl + 1) ts with
      | none => none
      | some (a, ts1) => parseBinTail f lvl a ts1

/-- Left-associative chain of operators at one level. -/
def parseBinTail : Nat → Nat → JSExpr → List Tok → Option (JSExpr × List Tok)
  | 0, _, _, _ => none
  | f + 1, lvl, acc, ts =>
    match ts with
    | .top o :: ts2 =>
      if opLevel o == lvl then
        match parseLevel f (lvl + 1) ts2 with
        | none => none
        | some (b, ts3) => parseBinTail f lvl (.bin o acc b) ts3
      else some (acc, ts)
    | _ => some (acc, ts)

/-- Postfix chain (member access / calls) after a primary. -/
def parsePost : Nat → List Tok → Option (JSExpr × List Tok)
  | 0, _ => none
  | f + 1, ts =>
    match parsePrimary f ts with
    | none => none
    | some (a, ts1) => parsePostTail f a ts1

/-- `.field` and `(args)` applications. -/
def parsePostTail : Nat → JSExpr → List Tok → Option (JSExpr × List Tok)
  | 0, _, _ => none
  | f + 1, a, ts =>
    match ts with
    | .tdot :: .tid fld :: ts2 => parsePostTail f (.member a fld) ts2
    | .tlp :: .trp :: ts2 => parsePostTail f (.call a []) ts2
    | .tlp :: ts2 =>
      match parseArgs f ts2 with
      | none => none
      | some (args, ts3) => parsePostTail f (.call a args) ts3
    | _ => some (a, ts)

/-- Comma-separated argument list up to the closing parenthesis. -/
def parseArgs : Nat → List Tok → Option (List JSExpr × List Tok)
  | 0, _ => none
  | f + 1, ts =>
    match parseLevel f 0 ts with
    | none => none
    | some (a, ts1) =>
      match ts1 with
      | .tcomma :: ts2 =>
        match parseArgs f ts2 with
        | none => none
        | some (rest, ts3) => some (a :: rest, ts3)
      | .trp :: ts2 => some ([a], ts2)
      | _ => none

/-- Primary expressions: literals, identifiers, parenthesised expressions. -/
def parsePrimary : Nat → List Tok → Option (JSExpr × List Tok)
  | 0, _ => none
  | _ + 1, .tnum n :: r => some (.numLit n, r)
  | _ + 1, .tstr s :: r => some (.strLit s, r)
  | _ + 1, .tid s :: r =>
    if s == strL "true" then some (.boolLit true, r)
    else if s == strL "false" then some (.boolLit false, r)
    else if s == strL "null" then some (.nullLit, r)
    else if s == strL "undefined" then some (.undefLit, r)
    else some (.ident s, r)
  | f + 1, .tlp :: r =>
    match parseLevel f 0 r with
    | none => none
    | some (a, .trp :: ts2) => some (a, ts2)
    | some _ => none
  | _ + 1, _ => none

end

/-- Parse a full expression string (must consume every token). -/
def parseExpr (s : Str) : Option JSExpr :=
  match tokenizeF (s.length + 1) s with
  | none => none
  | some ts =>
    match parseLevel (6 * (ts.length + 2)) 0 ts with
    | some (e, []) => some e
    | _ => none

/-- Strict equality `===` (reference equality of objects modelled `false`). -/
def strictEq : JSVal → JSVal → Bool
  | .undef, .undef => true
  | .null, .null => true
  | .bool a, .bool b => a == b
  | .num a, .num b => a == b
  | .str a, .str b => a == b
  | _, _ => false

/-- String coercion for `String(x)` and `+` (primitives only; coercing an
object is outside the modelled fragment). -/
def jsCoerceStr : JSVal → Except Str Str
  | .undef => .ok (strL "undefined")
  | .null => .ok (strL "null")
  | .bool b => .ok (strL (if b then "true" else "false"))
  | .num n => .ok (toString n).toList
  | .str s => .ok s
  | _ => .error (strL "object-to-string coercion not modelled")

/-- Binary operator semantics on the modelled fragment. -/
def applyBin : BinOp → JSVal → JSVal → Except Str JSVal
  | .gt, .num x, .num y => .ok (.bool (decide (y < x)))
  | .lt, .num x, .num y => .ok (.bool (decide (x < y)))
  | .ge, .num x, .num y => .ok (.bool (decide (y ≤ x)))
  | .le, .num x, .num y => .ok (.bool (decide (x ≤ y)))
  | .add, .num x, .num y => .ok (.num (x + y))
  | .add, .str x, y => (jsCoerceStr y).map (fun s => .str (x ++ s))
  | .add, x, .str y => (jsCoerceStr x).map (fun s => .str (s ++ y))
  | .sub, .num x, .num y => .ok (.num (x - y))
  | .mul, .num x, .num y => .ok (.num (x * y))
  | .eq3, x, y => .ok (.bool (strictEq x y))
  | .neq3, x, y => .ok (.bool (!strictEq x y))
  | .eq2, .null, .undef => .ok (.bool true)
  | .eq2, .undef, .null => .ok (.bool true)
  | .eq2, x, y => .ok (.bool (strictEq x y))
  | .neq2, .null, .undef => .ok (.bool false)
  | .neq2, .undef, .null => .ok (.bool false)
  | .neq2, x, y => .ok (.bool (!strictEq x y))
  | _, _, _ => .error (strL "operand coercion not modelled")

/-- First / second argument with JS's missing-argument = `undefined`. -/
def argD (args : List JSVal) (n : Nat) : JSVal := (args.get? n).getD (.undef)

/-- Semantics of the sandbox's safe-function set (`_createSafeSandbox`
lines 678-683).  `Math`/`JSON` are plain objects, so calling them is a
`TypeError`, modelled by the final error case; `Array`/`Date` calls are
outside the modelled fragment. -/
def applyBuiltin (name : Str) (args : List JSVal) : Except Str JSVal :=
  let a := argD args 0
  let b := argD args 1
  if name == strL "and" then .ok (if truthy a then b else a)
  else if name == strL "or" then .ok (if truthy a then a else b)
  else if name == strL "not" then .ok (.bool (!truthy a))
  else if name == strL "eq" then .ok (.bool (strictEq a b))
  else if name == strL "neq" then .ok (.bool (!strictEq a b))
  else if name == strL "gt" then applyBin .gt a b
  else if name == strL "lt" then applyBin .lt a b
  else if name == strL "gte" then applyBin .ge a b
  else if name == strL "lte" then applyBin .le a b
  else if name == strL "String" then (jsCoerceStr a).map JSVal.str
  else if name == strL "Boolean" then .ok (.bool (truthy a))
  else if name == strL "Number" then
    match a with
    | .num n => .ok (.num n)
    | .bool tv => .ok (.num (if tv then 1 else 0))
    | .null => .ok (.num 0)
    | _ => .error (strL "Number coercion not modelled")
  else .error (strL "not a modelled function")

mutual

/-- Evaluator (fuel-structural; `jsexprFuel` dominates the AST depth).
Member access is own-property lookup (inherited members are outside the
modelled fragment); member access on `undefined`/`null` and calling a
non-function are the JS `TypeError`s the sandbox catches. -/
def evalJS : Nat → JSExpr → Ctx → Except Str JSVal
  | 0, _, _ => .error (strL "fuel")
  | f + 1, e, ctx =>
    match e with
    | .numLit n => .ok (.num n)
    | .strLit s => .ok (.str s)
    | .boolLit b => .ok (.bool b)
    | .nullLit => .ok .null
    | .undefLit => .ok .undef
    | .ident name =>
      match ctxGet ctx name with
      | some v => .ok v
      | none => .error (strL "ReferenceError")
    | .member o fld =>
      match evalJS f o ctx with
      | .error err => .error err
      | .ok .undef => .error (strL "TypeError: member of undefined")
      | .ok .null => .error (strL "TypeError: member of null")
      | .ok v =>
        match ownProp v fld with
        | some w => .ok w
        | none => .ok .undef
    | .call fn args =>
      match evalJS f fn ctx with
      | .error err => .error err
      | .ok fv =>
        match evalArgs f args ctx with
        | .error err => .error err
        | .ok avs =>
          match fv with
          | .builtin name => applyBuiltin name avs
          | _ => .error (strL "TypeError: not a function")
    | .bin op a b =>
      match evalJS f a ctx with
      | .error err => .error err
      | .ok va =>
        match evalJS f b ctx with
        | .error err => .error err
        | .ok vb => applyBin op va vb

/-- Left-to-right argument evaluation. -/
def evalArgs : Nat → List JSExpr → Ctx → Except Str (List JSVal)
  | 0, _, _ => .error (strL "fuel")
  | _ + 1, [], _ => .ok []
  | f + 1, a :: rest, ctx =>
    match evalJS f a ctx with
    | .error err => .error err
    | .ok v =>
      match evalArgs f rest ctx with
      | .error err => .error err
      | .ok vs => .ok (v :: vs)

end

mutual

/-- Fuel bound for `evalJS`: the AST size. -/
def jsexprFuel : JSExpr → Nat
  | .member o _ => jsexprFuel o + 1
  | .call fn args => jsexprFuel fn + jsexprFuelL args + 1
  | .bin _ a b => jsexprFuel a + jsexprFuel b + 1
  | _ => 1

/-- Fuel bound for `evalArgs`. -/
def jsexprFuelL : List JSExpr → Nat
  | [] => 1
  | a :: rest => jsexprFuel a + jsexprFuelL rest + 1

end

/-- The safe-function set of `_createSafeSandbox` (lines 678-683), bound as
`builtin` values. -/
def safeFunctions : Ctx :=
  [strL "String", strL "Number", strL "Boolean", strL "Array", strL "Date", strL "Math",
   strL "JSON", strL "and", strL "or", strL "not", strL "eq", strL "neq", strL "gt",
   strL "lt", strL "gte", strL "lte"].map (fun n => (n, JSVal.builtin n))

/-- `_createSafeSandbox` (lines 670-686): own entries of `variables` minus
the unsafe keys, then the safe-function set (`{...safeVariables, ...safeFunctions}`). -/
def createSafeSandbox (vars : Ctx) : Ctx :=
  ctxMerge (vars.filter (fun e => !(unsafeKeys.contains e.1))) safeFunctions

/-- The explicit capability-nulling entries of the `vm.createContext`
argument (lines 706-708): `process: undefined, global: undefined,
console: Object.create(null), setTimeout/setInterval/setImmediate/Buffer/
require: undefined`. -/
def nulledGlobals : Ctx :=
  [(strL "process", JSVal.undef), (strL "global", JSVal.undef), (strL "console", JSVal.obj []),
   (strL "setTimeout", JSVal.undef), (strL "setInterval", JSVal.undef),
   (strL "setImmediate", JSVal.undef), (strL "Buffer", JSVal.undef),
   (strL "require", JSVal.undef)]

/-- The sandbox context `vm.createContext({..._createSafeSandbox(variables),
process: undefined, ...})` — the explicit keys override anything the
variables supplied. -/
def vmContext (vars : Ctx) : Ctx :=
  ctxMerge (createSafeSandbox vars) nulledGlobals

/-- `_evaluateExpression(expr, variables)` on an already-parsed AST. -/
def evaluateExpressionAst (e : JSExpr) (vars : Ctx) : JSVal :=
  match evalJS (jsexprFuel e) e (vmContext vars) with
  | .ok v => v
  | .error _ => .null

/-- `_evaluateExpression` (lines 703-717): parse `(${expr})`, evaluate it in
the sandbox, and catch every failure as `null`. -/
def evaluateExpression (expr : Str) (vars : Ctx) : JSVal :=
  match parseExpr expr with
  | none => .null
  | some e => evaluateExpressionAst e vars

/-!
## String helpers and capture access
-/

/-- Does `s` start with `pre`? -/
def startsWithStr : Str → Str → Bool
  | _, [] => true
  | [], _ :: _ => false
  | c :: t, p :: pt => c == p && startsWithStr t pt

/-- JS `s.includes(pat)`. -/
def containsSub : Str → Str → Bool
  | [], pat => pat.isEmpty
  | c :: t, pat => startsWithStr (c :: t) pat || containsSub t pat

/-- JS `String.trim`. -/
def trimJS (s : Str) : Str :=
  ((s.dropWhile jsSpace).reverse.dropWhile jsSpace).reverse

/-- Capture group `i` (1-based), `none` when the group did not participate. -/
def capOpt (cp : Caps) (i : Nat) : Option Str := (cp.get? (i - 1)).bind id

/-- Capture group `i`, with JS's `grp || ''` convention. -/
def capStr (cp : Caps) (i : Nat) : Str := (capOpt cp i).getD []

/-!
## The user-function phase (`_processUserFunctions`, lines 521-571)
-/

/-- The user-feature registry (`userFeatures`): template variables and the
functions loaded from the customize directory.  Functions are modelled as
total `List JSVal → JSVal` (a throwing user function is caught by
`_executeUserFunction` and yields `null`, which the total model folds into
the function's result). -/
structure Feats where
  vars : Ctx
  funcs : List (Str × (List JSVal → JSVal))

/-- `_executeUserFunction` (lines 333-341): registry lookup; a missing
function throws, is caught, and yields `null`. -/
def executeUserFunction (feats : Feats) (funcName : Str) (args : List JSVal) : JSVal :=
  match feats.funcs.find? (fun e => e.1 == funcName) with
  | none => .null
  | some e => e.2 args

/-- The inline `/^["'](.*)["']$/` of argument classification: fully quoted
literal (mismatched quote pairs allowed, line terminators not matched by
`.`). -/
def quotedLit? (arg : Str) : Option Str :=
  match arg with
  | c :: rest =>
    if (c == '"' || c == '\'') &&
       (match rest.getLast? with
        | some l => l == '"' || l == '\''
        | none => false) &&
       rest.dropLast.all (fun x => !(x == '\n' || x == '\r' || x == ' ' || x == ' '))
    then some rest.dropLast
    else none
  | [] => none

/-- The inline `/\{\{(\w+)\}\}/` of argument classification. -/
def varRefRegex : Re :=
  seqL [.lit '{', .lit '{', .group 1 (plus false wordCls), .lit '}', .lit '}']

/-- Digits to a number. -/
def natFromDigits (ds : Str) : Nat := ds.foldl (fun n d => n * 10 + (d.toNat - 48)) 0

/-- The integer subset of JS `Number(arg)` (floats/hex/exponents are outside
the modelled fragment; no claim passes them as arguments). -/
def strToInt? : Str → Option Int
  | '-' :: ds =>
    if !ds.isEmpty && ds.all Char.isDigit then some (-(Int.ofNat (natFromDigits ds))) else none
  | '+' :: ds =>
    if !ds.isEmpty && ds.all Char.isDigit then some (Int.ofNat (natFromDigits ds)) else none
  | ds =>
    if !ds.isEmpty && ds.all Char.isDigit then some (Int.ofNat (natFromDigits ds)) else none

/-- One trimmed, non-empty argument of a user-function call (lines 533-562):
quoted literal → `{{name}}` reference (unsafe name drops the argument;
an undefined variable falls through) → `true/false/null/undefined` →
number → unsafe-name guard → context lookup falling back to the raw text.
`none` = JS `undefined`, filtered out by the caller. -/
def classifyArg (vars : Ctx) (arg : Str) : Option JSVal :=
  match quotedLit? arg with
  | some inner => some (.str inner)
  | none =>
    match
      (match (matchAll varRefRegex 1 arg).head? with
       | some mm =>
         let varName := capStr mm.2.2 1
         if unsafeKeys.contains varName then some none
         else
           match ctxGet vars varName with
           | some .undef => none
           | some v => some (some v)
           | none => none
       | none => none : Option (Option JSVal)) with
    | some r => r
    | none =>
      if arg == strL "true" then some (.bool true)
      else if arg == strL "false" then some (.bool false)
      else if arg == strL "null" then some .null
      else if arg == strL "undefined" then none
      else
        match strToInt? arg with
        | some n => some (.num n)
        | none =>
          if unsafeKeys.contains arg then none
          else
            match ctxGet vars arg with
            | some .undef => some (.str arg)
            | some v => some v
            | none => some (.str arg)

/-- `_processUserFunctions` (lines 521-571): replace each
`{{user: name(args)}}`; unsafe names render `''`; arguments are
naively comma-split, trimmed, classified and the dropped ones filtered
out; the registry function's result is stringified. -/
def processUserFunctions (feats : Feats) (content : Str) (vars : Ctx) : Str :=
  replaceAll userFuncRegex 2
    (fun _ cp =>
      let funcCall := capStr cp 1
      if unsafeKeys.contains funcCall then []
      else
        let cleanedArgs :=
          ((splitOnChar ',' (capStr cp 2)).map trimJS).filter (fun a => !a.isEmpty)
            |>.filterMap (classifyArg vars)
        safeToString (executeUserFunction feats funcCall cleanedArgs))
    content

/-!
## The conditional phase (`_processConditionals`, lines 476-505)
-/

/-- The `IfRegex` replacement callback (lines 483-500): flag nested `if`s,
take the main branch when its condition is truthy, otherwise the first
else-if branch (scanned with `elseIfRegex`) whose condition is truthy,
otherwise the else branch or `''`. -/
def condCallback (vars : Ctx) (_m : Str) (cp : Caps) : Str × Bool :=
  let ifCondition := capStr cp 1
  let ifContent := capStr cp 2
  let elseIfBlocks := capStr cp 3
  let elseContent := capStr cp 4
  let changed := containsSub (ifContent ++ elseIfBlocks ++ elseContent) (strL "\x7b\x7bif")
  let result :=
    if truthy (evaluateExpression ifCondition vars) then ifContent
    else
      match
        (if elseIfBlocks.isEmpty then none
         else (matchAll elseIfRegex 2 elseIfBlocks).find?
                (fun mm => truthy (evaluateExpression (capStr mm.2.2 1) vars))) with
      | some mm => capStr mm.2.2 2
      | none => elseContent
  (result, changed)

/-- The nested-conditional `while` loop (lines 480-502): re-run the
`IfRegex` replacement while a callback saw a nested `{{if`, up to 20
passes. -/
def condAux (vars : Ctx) : Nat → Str → Str
  | 0, result => result
  | r + 1, result =>
    let step := replaceAllFlag ifRegex 4 (condCallback vars) result
    if step.2 then condAux vars r step.1 else step.1

/-- `_processConditionals` (lines 476-505). -/
def processConditionals (content : Str) (vars : Ctx) : Str :=
  condAux vars 20 content

/-!
## The loop phase (`_processLoops`, lines 404-463)
-/

/-- The `{{break}}`/`{{continue}}` handling of `processLoop`'s iteration
loop (lines 426-445), as a fold over the per-iteration processed outputs
(`processVariables(loopContent, loopVariables)` for each entry): an output
containing `{{break}}` ends the loop and contributes nothing — the marker
strip of line 437 is a dead store, since `break` leaves the `for` before
line 444's `loopResult += processedContent` runs; an output containing
`{{continue}}` likewise contributes nothing (the strip of line 439 is
equally dead) and the loop proceeds; otherwise the output is appended.
(The source `break`s out of its `for` without processing later
iterations; processing is pure here, so folding the fully mapped list is
output-equivalent.) -/
def loopControlFold : List Str → Str
  | [] => []
  | out :: rest =>
    if containsSub out (strL "{{break}}") then []
    else if containsSub out (strL "{{continue}}") then loopControlFold rest
    else out ++ loopControlFold rest

/-- The loop-emptiness test (lines 418-419): falsy, empty array, or
object with no keys. -/
def isEmptyCollection (v : JSVal) : Bool :=
  !truthy v ||
    (match v with
     | .arr xs => xs.isEmpty
     | .obj fs => fs.isEmpty
     | _ => false)

/-- `Object.entries(collection)` (key-value loops): object fields, array
index/value pairs with string keys, boxed-string characters; primitives
have no entries. -/
def objEntries : JSVal → List (JSVal × JSVal)
  | .obj fs => fs.map (fun e => (.str e.1, e.2))
  | .arr xs => xs.enum.map (fun e => (.str (toString e.1).toList, e.2))
  | .str s => s.enum.map (fun e => (.str (toString e.1).toList, .str [e.2]))
  | _ => []

/-- `collection.map((v, i) => [i, v])` (simple loops): only arrays have
`.map`; anything else is the `TypeError` that the `catch` turns into `''`. -/
def arrEntries : JSVal → Except Str (List (JSVal × JSVal))
  | .arr xs => .ok (xs.enum.map (fun e => (.num e.1, e.2)))
  | _ => .error (strL "collection.map is not a function")

/-- The augmented per-iteration context (lines 428-433). -/
def mkLoopVars (vars : Ctx) (primary : Str) (second : Option Str)
    (key value : JSVal) (i total : Nat) : Ctx :=
  let base :=
    ctxSet (ctxSet (ctxSet (ctxSet vars
      primary (match second with | some _ => key | none => value))
      (primary ++ strL "_index") (.num i))
      (primary ++ strL "_isFirst") (.bool (i == 0)))
      (primary ++ strL "_isLast") (.bool (i == total - 1))
  match second with
  | some v2 => ctxSet base v2 value
  | none => base

/-- `processLoop` (lines 408-452), parameterised by the recursive
`processVariables` (`pv`). -/
def processLoop (pv : Str → Ctx → Str) (itemNames : List Str)
    (collectionName loopContent : Str) (emptyContent : Option Str) (vars : Ctx) : Str :=
  if itemNames.any (fun n => unsafeKeys.contains n) then []
  else
    let collection := evaluateExpression collectionName vars
    if isEmptyCollection collection then
      match emptyContent with
      | some e => if e.isEmpty then [] else pv e vars
      | none => []
    else
      let primary := itemNames.headD []
      let second := if itemNames.length > 1 then itemNames.get? 1 else none
      match (if itemNames.length > 1 then .ok (objEntries collection) else arrEntries collection) with
      | .error _ => []
      | .ok entries =>
        loopControlFold (entries.enum.map (fun e =>
          pv loopContent (mkLoopVars vars primary second e.2.1 e.2.2 e.1 entries.length)))

/-- `_processLoops` (lines 404-463): key-value loops first, then simple
loops. -/
def processLoops (pv : Str → Ctx → Str) (content : Str) (vars : Ctx) : Str :=
  let r1 := replaceAll forKeyValueRegex 5
    (fun _ cp => processLoop pv [capStr cp 1, capStr cp 2] (capStr cp 3) (capStr cp 4)
      (capOpt cp 5) vars) content
  replaceAll forRegex 4
    (fun _ cp => processLoop pv [capStr cp 1] (capStr cp 2) (capStr cp 3)
      (capOpt cp 4) vars) r1

/-!
## The variable/expression phase (`_processVariablesAndExpressions`,
lines 593-641)
-/

/-- `_processVariablesAndExpressions`: restore backtick-escaped variables,
resolve dotted paths, substitute each (safe) context variable literally,
then evaluate any remaining `{{...}}` as a sandbox expression — except
empty expressions (`''`), user-function markers, and structural keyword
fragments, which are left for their own phase. -/
def processVariablesAndExpressions (content : Str) (vars : Ctx) : Str :=
  let r1 := replaceAll quotedVarRegex 1
    (fun _ cp => '{' :: '{' :: (capStr cp 1 ++ ['}', '}'])) content
  let r2 := replaceAll objectPropertyRegex 1
    (fun _ cp => safeToString (getValueByPath (.obj vars) (capStr cp 1))) r1
  let r3 := vars.foldl
    (fun acc e =>
      if unsafeKeys.contains e.1 then acc
      else replaceAll (simpleVarRegex e.1) 0 (fun _ _ => safeToString e.2) acc)
    r2
  replaceAll expressionRegex 1
    (fun m cp =>
      let expression := capStr cp 1
      if (trimJS expression).isEmpty then []
      else if containsSub expression (strL "user:") then m
      else
        let te := trimJS expression
        if startsWithStr te (strL "if ") || te == strL "else" || te == strL "endif" ||
           startsWithStr te (strL "for ") || te == strL "endfor" || te == strL "empty" ||
           te == strL "break" || te == strL "continue" then m
        else safeToString (evaluateExpression te vars))
    r3

/-!
## The iterative pipeline (`processVariables` / `_processIteratively`,
lines 364-390)
-/

/-- `_hasUnprocessedTags` (lines 348-355). -/
def hasUnprocessedTags (content : Str) : Bool :=
  reTest forRegex 4 content || reTest forKeyValueRegex 5 content ||
  reTest ifRegex 4 content || reTest userFuncRegex 2 content ||
  reTest expressionRegex 1 content || reTest objectPropertyRegex 1 content

/-- One pass of the phase pipeline (line 370's `processingPhases` applied in
order), parameterised by the recursive `processVariables`. -/
def runPhases (pv : Str → Ctx → Str) (feats : Feats) (content : Str) (vars : Ctx) : Str :=
  processVariablesAndExpressions
    (processUserFunctions feats
      (processConditionals
        (processLoops pv content vars) vars) vars) vars

/-- The `do/while` of `_processIteratively` (lines 380-390): run a pass,
stop when the output is unchanged, the pass counter reaches 10, or no
unprocessed tag shapes remain.  Returns the result together with the
number of passes executed (the source's local `iteration`, exposed for
analysis). -/
def iterAux (step : Str → Str) : Nat → Str → Nat → Str × Nat
  | 0, content, done => (content, done)
  | r + 1, content, done =>
    let result := step content
    if result ≠ content ∧ done + 1 < 10 ∧ hasUnprocessedTags result = true then
      iterAux step r result (done + 1)
    else (result, done + 1)

/-- `_processIteratively` with its pass count, parameterised by the
recursive `processVariables` that loop bodies re-enter. -/
def processIterativelyWith (pv : Str → Ctx → Str) (feats : Feats) (content : Str)
    (vars : Ctx) : Str × Nat :=
  iterAux (fun c => runPhases pv feats c vars) 10 content 0

/-- `processVariables(content, requestVariables)` (lines 364-367): merge the
registry variables with the request variables and process iteratively.
The `fuel` argument bounds the `processVariables` recursion that loop
bodies re-enter (the source recurses on strictly smaller loop-body
substrings; any fuel at least that nesting depth gives the source's
behaviour). -/
def processVariablesF : Nat → Feats → Str → Ctx → Str
  | 0, _, content, _ => content
  | fuel + 1, feats, content, req =>
    (processIterativelyWith (fun c2 r2 => processVariablesF fuel feats c2 r2)
      feats content (ctxMerge feats.vars req)).1

/-- `_processIteratively` (lines 380-390) at a given recursion fuel. -/
def processIteratively (fuel : Nat) (feats : Feats) (content : Str) (vars : Ctx) : Str × Nat :=
  processIterativelyWith (fun c2 r2 => processVariablesF fuel feats c2 r2) feats content vars

/-!
## Paths and the include resolver (`processIncludes`, lines 150-231)

POSIX paths are modelled as strings with the usual segment semantics
(`path.resolve` normalises `.`/`..`/duplicate separators, `..` above the
root stays at the root).  `CWD` stands for `process.cwd()`.
-/

/-- The process working directory (model constant for `process.cwd()`). -/
def CWD : Str := strL "/app"

/-- `templatesAbsDir = path.join(CWD, 'templates')` (line 21). -/
def templatesAbsDir : Str := CWD ++ strL "/templates"

/-- `path.isAbsolute` (POSIX). -/
def isAbsolutePath (p : Str) : Bool := startsWithStr p (strL "/")

/-- Normalise path segments with a stack (`..` pops, `.`/empty vanish;
`..` above the root of an absolute path is dropped). -/
def normSegs : List Str → List Str → List Str
  | acc, [] => acc.reverse
  | acc, s :: rest =>
    if s.isEmpty || s == strL "." then normSegs acc rest
    else if s == strL ".." then
      match acc with
      | _ :: t => normSegs t rest
      | [] => normSegs [] rest
    else normSegs (s :: acc) rest

/-- `path.resolve(p)` for an absolute `p`: normalisation. -/
def pResolveAbs (p : Str) : Str :=
  strL "/" ++ List.intercalate (strL "/") (normSegs [] (splitOnChar '/' p))

/-- `path.resolve(dir, file)` with `dir` absolute. -/
def pResolve2 (dir file : Str) : Str :=
  if isAbsolutePath file then pResolveAbs file
  else pResolveAbs (dir ++ strL "/" ++ file)

/-- `path.join(a, b)` with `a` absolute. -/
def pJoin (a b : Str) : Str := pResolveAbs (a ++ strL "/" ++ b)

/-- `path.dirname` of an absolute path. -/
def pDirname (p : Str) : Str :=
  match (normSegs [] (splitOnChar '/' p)).dropLast with
  | [] => strL "/"
  | segs => strL "/" ++ List.intercalate (strL "/") segs

/-- Drop the common leading segments of two segment lists. -/
def dropCommonSegs : List Str → List Str → List Str × List Str
  | a :: as_, b :: bs =>
    if a == b then dropCommonSegs as_ bs else (a :: as_, b :: bs)
  | as_, bs => (as_, bs)

/-- `path.relative(fromP, toP)` for absolute paths. -/
def pRelative (fromP toP : Str) : Str :=
  let fr := normSegs [] (splitOnChar '/' (pResolveAbs fromP))
  let tr := normSegs [] (splitOnChar '/' (pResolveAbs toP))
  let (f, t) := dropCommonSegs fr tr
  List.intercalate (strL "/") (f.map (fun _ => strL "..") ++ t)

/-- `_isSafePath` (lines 53-56): the resolved path must be a string-prefix
extension of the resolved base directory. -/
def isSafePath (requestedPath baseDir : Str) : Bool :=
  startsWithStr (pResolveAbs requestedPath) (pResolveAbs baseDir)

/-- JS `content.slice(a, b)`. -/
def strSlice (s : Str) (a b : Nat) : Str := (s.drop a).take (b - a)

/-- The module state of section 3: the `includedFiles` registry (a set,
modelled as a duplicate-free list) and the compilation-mode flag. -/
structure IncludeState where
  includedFiles : List Str
  isCompilationMode : Bool

/-- `setCompilationMode` (lines 157-160): set the flag; entering
compilation mode clears the registry. -/
def setCompilationMode (mode : Bool) (st : IncludeState) : IncludeState :=
  { isCompilationMode := mode, includedFiles := if mode then [] else st.includedFiles }

/-- `getIncludedFiles` (lines 166-168): `new Set(includedFiles)` — a copy
of the registry (copying is value semantics in the model). -/
def getIncludedFiles (st : IncludeState) : List Str := st.includedFiles

/-- `Set.add`. -/
def setAdd (l : List Str) (x : Str) : List Str := if l.contains x then l else l ++ [x]

/-- The file system seen by `fs.promises.readFile`, keyed by absolute path. -/
abbrev FileSys := List (Str × Str)

/-- `readFile` (a `none` is the read failure the `catch` downgrades). -/
def readFile (fs : FileSys) (p : Str) : Option Str :=
  (fs.find? (fun e => e.1 == p)).map (fun e => e.2)

/-- The match collection of `processIncludes` (lines 178-183): all
`includeRegex` matches as `(index, fullMatch, trimmed fileName)`, skipping
the fully quoted form (both quote groups present). -/
def collectIncludeMatches (content : Str) : List (Nat × Str × Str) :=
  (matchAll includeRegex 4 content).filterMap (fun mm =>
    let cp := mm.2.2
    if (capOpt cp 1).isSome && (capOpt cp 3).isSome then none
    else some (mm.1, mm.2.1, trimJS (((capOpt cp 4).getD ((capOpt cp 2).getD [])))))

/-- The path resolution of one include directive (lines 192-197):
absolute paths join under the template root; relative paths resolve
against the current file's directory (or the root when there is none). -/
def resolveIncludePath (currentFile fileName : Str) : Str :=
  if isAbsolutePath fileName then pJoin templatesAbsDir fileName
  else
    pResolve2
      (if currentFile.isEmpty then templatesAbsDir
       else pDirname (pJoin templatesAbsDir currentFile))
      fileName

/-- One directive of the descending-order splice loop (lines 189-227).
The accumulator carries `(parts, lastIndex, state, readPaths)`; `recur` is
the recursive `processIncludes` call.  In source order: push the text
after the directive, resolve the path, drop unsafe paths, drop cyclic and
self includes, then read, record the dependency in compilation mode, and
recurse on the included file's content. -/
def includeStep (fs : FileSys)
    (recur : Str → Str → List Str → IncludeState → Str × IncludeState × List Str)
    (content currentFile : Str) (inclusionStack : List Str)
    (acc : List Str × Nat × IncludeState × List Str) (m : Nat × Str × Str) :
    List Str × Nat × IncludeState × List Str :=
  let parts := acc.1
  let lastIndex := acc.2.1
  let st := acc.2.2.1
  let reads := acc.2.2.2
  let index := m.1
  let fullMatch := m.2.1
  let fileName := m.2.2
  let parts := parts ++ [strSlice content (index + fullMatch.length) lastIndex]
  let includePath := resolveIncludePath currentFile fileName
  if !(isSafePath includePath templatesAbsDir) then
    (parts ++ [[]], index, st, reads)
  else
    let relativeIncludePath := pRelative templatesAbsDir includePath
    if inclusionStack.contains includePath then
      (parts ++ [[]], index, st, reads)
    else if relativeIncludePath == currentFile then
      (parts ++ [[]], index, st, reads)
    else
      match readFile fs includePath with
      | none => (parts ++ [[]], index, st, reads)
      | some includedContent =>
        let st1 :=
          if st.isCompilationMode then
            { st with includedFiles := setAdd st.includedFiles relativeIncludePath }
          else st
        let r := recur includedContent relativeIncludePath
          (inclusionStack ++ [includePath]) st1
        (parts ++ [r.1], index, r.2.1, (reads ++ [includePath]) ++ r.2.2)

/-- `processIncludes(content, currentFile, inclusionStack)` (lines
177-231), with the module state threaded explicitly and the successfully
read paths reported.  `fuel` bounds the include recursion depth (the
source's recursion terminates because every recursive call strictly grows
the inclusion stack within the finite file system; sufficient fuel gives
the source's behaviour). -/
def processIncludesF (fs : FileSys) :
    Nat → Str → Str → List Str → IncludeState → Str × IncludeState × List Str
  | 0, content, _, _, st => (content, st, [])
  | fuel + 1, content, currentFile, inclusionStack, st =>
    let ms := collectIncludeMatches content
    if ms.isEmpty then (content, st, [])
    else
      -- `matches.sort((a, b) => b.index - a.index)`: `matchAll` yields
      -- strictly increasing indices, so the descending sort is the reverse.
      let sorted := ms.reverse
      let r := sorted.foldl
        (includeStep fs (fun c cf stk s => processIncludesF fs fuel c cf stk s)
          content currentFile inclusionStack)
        ([], content.length, st, [])
      (((r.1 ++ [strSlice content 0 r.2.1]).reverse).flatten, r.2.2.1, r.2.2.2)

/-!
## Block scanner and template compositor (sections 2 and 8 of the source)
-/

/-- `content.indexOf(pat, pos)` helper over a suffix. -/
def idxOfAux (pat : Str) : Nat → Str → Nat → Option Nat
  | 0, _, _ => none
  | f + 1, s, pos =>
    if startsWithStr s pat then some pos
    else
      match s with
      | [] => none
      | _ :: t => idxOfAux pat f t (pos + 1)

/-- JS `content.indexOf(pat, start)` (`none` = `-1`). -/
def idxOf (s pat : Str) (start : Nat) : Option Nat :=
  idxOfAux pat (s.length + 1) (s.drop start) start

/-- Block table: name ↦ ordered occurrences `(startIndex, endIndex,
innerContent)`, in first-seen order (JS object key order). -/
abbrev Blocks := List (Str × List (Nat × Nat × Str))

/-- Append an occurrence to a name's list (`blocks[openName].push(...)`). -/
def blocksAdd (blocks : Blocks) (name : Str) (occ : Nat × Nat × Str) : Blocks :=
  if blocks.any (fun e => e.1 == name) then
    blocks.map (fun e => if e.1 == name then (e.1, e.2 ++ [occ]) else e)
  else blocks ++ [(name, [occ])]

/-- The scan loop of `_findBlockPositions` (lines 113-138): find `[!`, its
closing `]`, then the next textually following `[~name]`; an open tag
without a close is skipped; nesting is ignored.  Each step advances the
index, so `content.length + 1` fuel completes the scan. -/
def findBlockPositionsF (content : Str) : Nat → Nat → Blocks → Blocks
  | 0, _, blocks => blocks
  | f + 1, index, blocks =>
    if index < content.length then
      match idxOf content (strL "[!") index with
      | none => blocks
      | some si =>
        match idxOf content (strL "]") si with
        | none => blocks
        | some oe =>
          let openName := trimJS (strSlice content (si + 2) oe)
          let closeTag := ('[' :: '~' :: openName) ++ [']']
          match idxOf content closeTag (oe + 1) with
          | none => findBlockPositionsF content f (oe + 1) blocks
          | some cs =>
            let endIndex := cs + closeTag.length
            findBlockPositionsF content f endIndex
              (blocksAdd blocks openName (si, endIndex, strSlice content (oe + 1) cs))
    else blocks

/-- `_findBlockPositions` (lines 113-138). -/
def findBlockPositions (content : Str) : Blocks :=
  findBlockPositionsF content (content.length + 1) 0 []

/-- `_cleanTemplateTags` (lines 145-147): strip every remaining block
marker. -/
def cleanTemplateTags (html : Str) : Str :=
  replaceAll templateTagRegex 2 (fun _ _ => []) html

/-- Lower-case a string (JS `toLowerCase` on the ASCII range used). -/
def toLowerStr (s : Str) : Str := s.map Char.toLower

/-- `_ensureDoctypeFirst` (lines 822-824). -/
def ensureDoctypeFirst (html : Str) : Str :=
  if startsWithStr (toLowerStr (trimJS html)) (strL "<!doctype") then html
  else strL "<!DOCTYPE html>\n" ++ html

/-- Stable insertion into a start-index-descending list (the
`sort((a, b) => b.startIndex - a.startIndex)` of line 847). -/
def insertDesc (x : Nat × Str × Nat) : List (Nat × Str × Nat) → List (Nat × Str × Nat)
  | [] => [x]
  | y :: t => if y.1 < x.1 then x :: y :: t else y :: insertDesc x t

/-- Sort replacements by start index, descending. -/
def sortByStartDesc (l : List (Nat × Str × Nat)) : List (Nat × Str × Nat) :=
  l.foldr insertDesc []

/-- `_renderTemplateContent(baseContent, templateContent)` (lines 832-853):
pair same-named occurrences positionally up to the shorter side (`zip`
truncates exactly as `min(length)` does), replace each paired base span
`[startIndex, endIndex)` with the child's inner content in descending
start-index order, then strip leftover markers and ensure a doctype. -/
def renderTemplateContent (baseContent templateContent : Str) : Str :=
  let baseBlocks := findBlockPositions baseContent
  let templateBlocks := findBlockPositions templateContent
  let replacements := templateBlocks.flatMap (fun e =>
    let baseArr := ((baseBlocks.find? (fun b => b.1 == e.1)).map (fun b => b.2)).getD []
    (baseArr.zip e.2).map (fun p => (p.1.1, p.2.2.2, p.1.2.1)))
  let finalHtml := (sortByStartDesc replacements).foldl
    (fun html r => strSlice html 0 r.1 ++ r.2.1 ++ html.drop r.2.2) baseContent
  ensureDoctypeFirst (cleanTemplateTags finalHtml)

/-!
## Structure validator (`_validateTemplateStructure`, lines 725-787)

Errors are modelled structurally; each constructor corresponds to one
`errors.push` message template of the source (line number first).
-/

/-- Open (`[!`) or close (`[~`) tag. -/
inductive TagType where
  | openT : TagType
  | closeT : TagType
deriving DecidableEq

/-- One structural error. -/
inductive StructErr where
  | missingBracket : Nat → TagType → StructErr
  | emptyName : Nat → TagType → StructErr
  | invalidChars : Nat → TagType → Str → StructErr
  | extraClose : Nat → Str → StructErr
  | mismatch : Nat → Str → Str → StructErr
  | unclosed : Nat → Str → StructErr
deriving DecidableEq

/-- Result of `parseTag` (lines 730-749): `B` (no closing bracket), `C`
(malformed, with the recorded error), or a well-formed tag name. -/
inductive ParseTagRes where
  | noBracket : ParseTagRes
  | bad : Nat → StructErr → ParseTagRes
  | okTag : Nat → Str → ParseTagRes

/-- `parseTag(i, tagType, newLine)`. -/
def parseTag (content : Str) (i : Nat) (t : TagType) (line : Nat) : ParseTagRes :=
  match idxOf content (strL "]") i with
  | none => .noBracket
  | some endIndex =>
    let rawName := strSlice content (i + 2) endIndex
    if (trimJS rawName).isEmpty then .bad endIndex (.emptyName line t)
    else
      let found := ['[', ']', '{', '}', '~'].filter (fun c => rawName.contains c)
      if !found.isEmpty then .bad endIndex (.invalidChars line t found)
      else .okTag endIndex (trimJS rawName)

/-- The unclosed-at-EOF errors (`stack.forEach`, line 785; the push-order
array traversal is the reverse of the cons-stack). -/
def unclosedErrs (stack : List (Str × Nat)) : List StructErr :=
  stack.reverse.map (fun e => .unclosed e.2 e.1)

/-- The main scan loop of `_validateTemplateStructure` (lines 752-786).
On a tag with no closing bracket the source records the error and
`break`s out of the loop (the unclosed-stack errors are still appended). -/
def scanV (content : Str) : Nat → Nat → Nat → List (Str × Nat) → List StructErr → List StructErr
  | 0, _, _, stack, errors => errors ++ unclosedErrs stack
  | f + 1, i, line, stack, errors =>
    if i < content.length then
      let c := (content.get? i).getD ' '
      let line' := if c == '\n' then line + 1 else line
      if startsWithStr (content.drop i) (strL "[!") then
        match parseTag content i .openT line' with
        | .noBracket => (errors ++ [.missingBracket line' .openT]) ++ unclosedErrs stack
        | .bad endIndex e => scanV content f (endIndex + 1) line' stack (errors ++ [e])
        | .okTag endIndex name => scanV content f (endIndex + 1) line' ((name, line') :: stack) errors
      else if startsWithStr (content.drop i) (strL "[~") then
        match parseTag content i .closeT line' with
        | .noBracket => (errors ++ [.missingBracket line' .closeT]) ++ unclosedErrs stack
        | .bad endIndex e => scanV content f (endIndex + 1) line' stack (errors ++ [e])
        | .okTag endIndex name =>
          match stack with
          | [] => scanV content f (endIndex + 1) line' [] (errors ++ [.extraClose line' name])
          | top :: rest =>
            if top.1 == name then scanV content f (endIndex + 1) line' rest errors
            else scanV content f (endIndex + 1) line' stack (errors ++ [.mismatch line' top.1 name])
      else scanV content f (i + 1) line' stack errors
    else errors ++ unclosedErrs stack

/-- `_validateTemplateStructure(content)` (lines 725-787). -/
def validateTemplateStructure (content : Str) : List StructErr :=
  scanV content (content.length + 1) 0 1 [] []

/-- The spec-side variant of the scan ("mismatch, unmatched-close, and
unclosed-at-EOF are all recorded (collection continues, never aborts)"):
identical to `scanV` except that a tag with no closing bracket records its
error and the scan continues at the next character instead of `break`ing. -/
def scanVFull (content : Str) : Nat → Nat → Nat → List (Str × Nat) → List StructErr → List StructErr
  | 0, _, _, stack, errors => errors ++ unclosedErrs stack
  | f + 1, i, line, stack, errors =>
    if i < content.length then
      let c := (content.get? i).getD ' '
      let line' := if c == '\n' then line + 1 else line
      if startsWithStr (content.drop i) (strL "[!") then
        match parseTag content i .openT line' with
        | .noBracket => scanVFull content f (i + 1) line' stack (errors ++ [.missingBracket line' .openT])
        | .bad endIndex e => scanVFull content f (endIndex + 1) line' stack (errors ++ [e])
        | .okTag endIndex name => scanVFull content f (endIndex + 1) line' ((name, line') :: stack) errors
      else if startsWithStr (content.drop i) (strL "[~") then
        match parseTag content i .closeT line' with
        | .noBracket => scanVFull content f (i + 1) line' stack (errors ++ [.missingBracket line' .closeT])
        | .bad endIndex e => scanVFull content f (endIndex + 1) line' stack (errors ++ [e])
        | .okTag endIndex name =>
          match stack with
          | [] => scanVFull content f (endIndex + 1) line' [] (errors ++ [.extraClose line' name])
          | top :: rest =>
            if top.1 == name then scanVFull content f (endIndex + 1) line' rest errors
            else scanVFull content f (endIndex + 1) line' stack (errors ++ [.mismatch line' top.1 name])
      else scanVFull content f (i + 1) line' stack errors
    else errors ++ unclosedErrs stack

/-- The never-aborting validator the spec describes. -/
def validateStructureFull (content : Str) : List StructErr :=
  scanVFull content (content.length + 1) 0 1 [] []

/-- A missing-closing-bracket error (the one kind whose later occurrences
the early `break` can drop; it is not among the error kinds the claim
enumerates). -/
def isMissingBracketErr : StructErr → Bool
  | .missingBracket _ _ => true
  | _ => false

/-!
## Theorems
-/

/-- Specification of `iterAux`: with the invariant `r + done = 10`, the
pass count stays at most 10, at least one pass runs, and the loop exits
only at the cap, at a fixpoint of the pass, or when the probe is clear. -/
theorem iterAux_spec (step : Str → Str) :
    ∀ (r : Nat) (content : Str) (done : Nat), r + done = 10 →
      (iterAux step r content done).2 ≤ 10 ∧ 1 ≤ (iterAux step r content done).2 ∧
      ((iterAux step r content done).2 = 10 ∨
        step (iterAux step r content done).1 = (iterAux step r content done).1 ∨
        hasUnprocessedTags (iterAux step r content done).1 = false) := by
  intro r
  induction r with
  | zero =>
    intro content done h
    simp only [iterAux]
    omega
  | succ n ih =>
    intro content done h
    simp only [iterAux]
    split
    · exact ih _ _ (by omega)
    · rename_i hneg
      refine ⟨by omega, by omega, ?_⟩
      by_cases hcap : done + 1 = 10
      · exact Or.inl hcap
      · by_cases hfix : step content = content
        · exact Or.inr (Or.inl (by simp [hfix]))
        · refine Or.inr (Or.inr ?_)
          by_cases hprobe : hasUnprocessedTags (step content) = true
          · exact absurd ⟨hfix, by omega, hprobe⟩ hneg
          · simpa using hprobe

/-- C7: for every input content and variable context, the iterative
pipeline runs at most 10 outer passes (and at least one); it stops only
because the cap of 10 was reached, because a pass left the output
unchanged (the result is a fixpoint of the phase pipeline), or because the
syntactic probe finds no remaining dynamic tag shapes.  The cap case
returns the partial result (the function is total — no exception). -/
theorem C7_pipeline_pass_cap (fuel : Nat) (feats : Feats) (content : Str) (vars : Ctx) :
    (processIteratively fuel feats content vars).2 ≤ 10 ∧
    1 ≤ (processIteratively fuel feats content vars).2 ∧
    ((processIteratively fuel feats content vars).2 = 10 ∨
      runPhases (fun c2 r2 => processVariablesF fuel feats c2 r2) feats
        (processIteratively fuel feats content vars).1 vars =
        (processIteratively fuel feats content vars).1 ∨
      hasUnprocessedTags (processIteratively fuel feats content vars).1 = false) := by
  have h := iterAux_spec
    (fun c => runPhases (fun c2 r2 => processVariablesF fuel feats c2 r2) feats c vars)
    10 content 0 rfl
  simpa [processIteratively, processIterativelyWith] using h

/-- C2 (code evaluation of the divergence): if the i-th processed
iteration output is the first to contain a `{{break}}` marker, the loop's
rendered result is the contributions of iterations `0..i-1` only (a
`{{continue}}` iteration contributing nothing) — the breaking iteration's
output is discarded entirely, not kept marker-stripped as the claim and
the spec state: the strip on line 437 is a dead store because `break`
exits the loop before `loopResult += processedContent` on line 444. -/
theorem C2_break_iteration_output_discarded (outs : List Str) (i : Nat)
    (hi : i < outs.length)
    (hpre : ∀ j, j < i → containsSub (outs.getD j []) (strL "{{break}}") = false)
    (hbrk : containsSub (outs.getD i []) (strL "{{break}}") = true) :
    loopControlFold outs =
      ((outs.take i).map
        (fun s => if containsSub s (strL "{{continue}}") = true then [] else s)).flatten := by
  induction outs generalizing i with
  | nil => simp at hi
  | cons o rest ih =>
    cases i with
    | zero =>
      simp only [List.getD_cons_zero] at hbrk
      simp [loopControlFold, hbrk]
    | succ k =>
      have h0 : containsSub o (strL "{{break}}") = false := by
        have := hpre 0 (Nat.succ_pos k)
        simpa using this
      have hk : containsSub (rest.getD k []) (strL "{{break}}") = true := by
        simpa using hbrk
      have hik : k < rest.length := by simpa using hi
      have hprek : ∀ j, j < k → containsSub (rest.getD j []) (strL "{{break}}") = false := by
        intro j hj
        have := hpre (j + 1) (by omega)
        simpa using this
      have hrec := ih k hik hprek hk
      by_cases hc : containsSub o (strL "{{continue}}") = true
      · simp [loopControlFold, h0, hc, hrec]
      · simp [loopControlFold, h0, hc, hrec]

/-- Witness for C2: iteration 0 plain, iteration 1 contains `{{continue}}`
(contributes nothing), iteration 2 contains `{{break}}`; the loop renders
`x` — iteration 2's output is discarded, where the claim's wording (kept,
marker-stripped) would give `xzw`. -/
theorem C2_break_iteration_output_discarded_witness :
    loopControlFold [strL "x", strL "y{{continue}}", strL "z{{ break }}w{{break}}", strL "later"] =
      strL "x" := by
  have h := C2_break_iteration_output_discarded
    [strL "x", strL "y{{continue}}", strL "z{{ break }}w{{break}}", strL "later"] 2
    (by decide) (by decide) (by decide)
  rw [h]
  decide

/-- C1 (code evaluation at the failing input): on
`{{if 1>2}}A{{else if 2>1}}B{{else}}C{{endif}}` the conditional phase — and
hence the full variable pipeline — returns `C`, not the specified `B`.
The else-if loop can never fire: `elseIfRegex` ends in the lookahead
`(?=\{\{(?:else\s+if|else|endif)\}\})`, but the `elseIfBlocks` capture of
`IfRegex` always ends right before the following `{{else}}`/`{{endif}}`,
so the lookahead never succeeds inside it and every else-if template falls
through to the else branch. -/
theorem C1_elseif_branch_dead_code_eval :
    processConditionals (strL "{{if 1>2}}A{{else if 2>1}}B{{else}}C{{endif}}") [] = strL "C" ∧
    (matchAll elseIfRegex 2 (strL "{{else if 2>1}}B")).length = 0 ∧
    processVariablesF 2 ⟨[], []⟩ (strL "{{if 1>2}}A{{else if 2>1}}B{{else}}C{{endif}}") [] =
      strL "C" := by
  decide

/-- C4: with two `a` blocks in the base and three in the child, exactly
the first two base occurrences are replaced by the child's first two inner
contents (paired positionally, spliced in descending start-index order),
the child's third block is discarded, and the rest of the base is
unchanged; symmetrically, a surplus base occurrence keeps its own content
(markers stripped, doctype prepended post-merge). -/
theorem C4_positional_block_pairing :
    renderTemplateContent (strL "X[!a]p[~a]Y[!a]q[~a]Z") (strL "[!a]1[~a][!a]2[~a][!a]3[~a]") =
      strL "<!DOCTYPE html>\nX1Y2Z" ∧
    renderTemplateContent (strL "U[!b]x[~b]V[!b]y[~b]W[!b]z[~b]") (strL "[!b]7[~b][!b]8[~b]") =
      strL "<!DOCTYPE html>\nU7V8Wz" := by
  decide

/-- The two-file cyclic template set of C3: `a.html` includes `b.html`,
which includes `a.html` back. -/
def fsAB : FileSys :=
  [(strL "/app/templates/a.html", strL "A[include b.html]"),
   (strL "/app/templates/b.html", strL "B[include a.html]")]

/-- Counterexample to C3 as stated: rendering `a.html` does terminate, but
the second-level reference back to `a.html` is *not* replaced by the empty
string — it is expanded once more (the result is `ABA`, not the `AB` the
claim implies), because at that point the inclusion stack holds only
`b.html`'s path and the self-include check compares against the current
file `b.html`. -/
theorem C3_counterexample_second_level_not_empty :
    (processIncludesF fsAB 5 (strL "A[include b.html]") (strL "a.html") [] ⟨[], false⟩).1 =
      strL "ABA" ∧ strL "ABA" ≠ strL "AB" := by
  decide

/-- C3 as amended: rendering `a.html` terminates for every recursion fuel
of at least the cycle's depth, with the same output, state and read set:
the expansion is cut one level later than the claim states — the
third-level include of `b.html` (whose resolved path is already in the
visited set) is the one dropped and replaced by the empty string.  Fuel
independence is the model's expression of "no infinite recursion, no
exception". -/
theorem C3_cycle_cut_at_third_level (fuel : Nat) :
    processIncludesF fsAB (fuel + 4) (strL "A[include b.html]") (strL "a.html") [] ⟨[], false⟩ =
      (strL "ABA", ⟨[], false⟩,
        [strL "/app/templates/b.html", strL "/app/templates/a.html"]) := by
  rfl

/-- Counterexample to C6 as stated: an expression that merely references
`process` evaluates to `undefined` (the sandbox binds the name to
`undefined`), which is not `null`. -/
theorem C6_counterexample_bare_process_is_undefined :
    evaluateExpression (strL "process") [] = JSVal.undef ∧ JSVal.undef ≠ JSVal.null :=
  ⟨rfl, fun h => JSVal.noConfusion h⟩

/-- Overriding map of `ctxSet`: finding the set key afterwards. -/
theorem find_map_override (t : Ctx) (k : Str) (v : JSVal) :
    List.find? (fun e => e.1 == k) (t.map (fun e => if e.1 == k then (k, v) else e)) =
      (if t.any (fun e => e.1 == k) then some (k, v) else none) := by
  induction t with
  | nil => simp
  | cons e t ih =>
    by_cases he : (e.1 == k) = true
    · simp only [List.map_cons, if_pos he]
      rw [@List.find?_cons_of_pos _ (fun x => x.1 == k) (k, v) _ (by simp)]
      have hany : ((e :: t).any (fun e => e.1 == k)) = true := by simp [List.any_cons, he]
      rw [if_pos hany]
    · have hb : (e.1 == k) = false := by simpa using he
      simp only [List.map_cons, if_neg he]
      rw [@List.find?_cons_of_neg _ (fun x => x.1 == k) e _ he, ih]
      simp only [List.any_cons, hb, Bool.false_or]

/-- Overriding map of `ctxSet`: finding a different key afterwards. -/
theorem find_map_override_other (t : Ctx) (k1 k2 : Str) (v : JSVal)
    (hk : (k1 == k2) = false) :
    List.find? (fun e => e.1 == k2) (t.map (fun e => if e.1 == k1 then (k1, v) else e)) =
      List.find? (fun e => e.1 == k2) t := by
  induction t with
  | nil => simp
  | cons e t ih =>
    by_cases h1 : (e.1 == k1) = true
    · have he1 : e.1 = k1 := by simpa using h1
      have h2 : ¬((e.1 == k2) = true) := by
        rw [he1, hk]
        simp
      have h2' : ¬(((k1, v) : Str × JSVal).1 == k2) = true := by
        simpa using hk
      simp only [List.map_cons, if_pos h1]
      rw [@List.find?_cons_of_neg _ (fun x => x.1 == k2) (k1, v) _ h2',
        @List.find?_cons_of_neg _ (fun x => x.1 == k2) e _ h2, ih]
    · by_cases h2 : (e.1 == k2) = true
      · simp only [List.map_cons, if_neg h1]
        rw [@List.find?_cons_of_pos _ (fun x => x.1 == k2) e _ h2,
          @List.find?_cons_of_pos _ (fun x => x.1 == k2) e _ h2]
      · simp only [List.map_cons, if_neg h1]
        rw [@List.find?_cons_of_neg _ (fun x => x.1 == k2) e _ h2,
          @List.find?_cons_of_neg _ (fun x => x.1 == k2) e _ h2, ih]

/-- Looking up the key just set. -/
theorem ctxGet_ctxSet_same (ctx : Ctx) (k : Str) (v : JSVal) :
    ctxGet (ctxSet ctx k v) k = some v := by
  by_cases h : (ctx.any (fun e => e.1 == k)) = true
  · simp only [ctxSet, if_pos h, ctxGet, find_map_override, h, if_true]
    rfl
  · have hn : ctx.find? (fun e => e.1 == k) = none := by
      rw [List.find?_eq_none]
      intro x hx
      simp only [Bool.not_eq_true]
      by_contra hc
      exact h (List.any_eq_true.mpr ⟨x, hx, by simpa using hc⟩)
    simp only [ctxSet, if_neg h, ctxGet, List.find?_append, hn, Option.none_or]
    rw [@List.find?_cons_of_pos _ (fun x => x.1 == k) (k, v) _ (by simp)]
    rfl

/-- Looking up a different key after a set. -/
theorem ctxGet_ctxSet_other (ctx : Ctx) (k1 k2 : Str) (v : JSVal)
    (hk : (k1 == k2) = false) :
    ctxGet (ctxSet ctx k1 v) k2 = ctxGet ctx k2 := by
  by_cases h : (ctx.any (fun e => e.1 == k1)) = true
  · simp only [ctxSet, if_pos h, ctxGet, find_map_override_other ctx k1 k2 v hk]
  · simp only [ctxSet, if_neg h, ctxGet, List.find?_append]
    rw [@List.find?_cons_of_neg _ (fun x => x.1 == k2) (k1, v) [] (by simpa using hk)]
    simp

/-- The sandbox context binds every capability name of lines 706-708 to its
nulled value, whatever the caller's variables were: the explicit keys of
the `vm.createContext` object literal override the spread. -/
theorem vmContext_nulled (vars : Ctx) :
    ctxGet (vmContext vars) (strL "process") = some JSVal.undef ∧
    ctxGet (vmContext vars) (strL "require") = some JSVal.undef ∧
    ctxGet (vmContext vars) (strL "Buffer") = some JSVal.undef ∧
    ctxGet (vmContext vars) (strL "global") = some JSVal.undef := by
  simp only [vmContext, ctxMerge, nulledGlobals, List.foldl]
  refine ⟨?_, ?_, ?_, ?_⟩
  · rw [ctxGet_ctxSet_other _ _ _ _ (by decide), ctxGet_ctxSet_other _ _ _ _ (by decide),
      ctxGet_ctxSet_other _ _ _ _ (by decide), ctxGet_ctxSet_other _ _ _ _ (by decide),
      ctxGet_ctxSet_other _ _ _ _ (by decide), ctxGet_ctxSet_other _ _ _ _ (by decide),
      ctxGet_ctxSet_other _ _ _ _ (by decide), ctxGet_ctxSet_same]
  · rw [ctxGet_ctxSet_same]
  · rw [ctxGet_ctxSet_other _ _ _ _ (by decide), ctxGet_ctxSet_same]
  · rw [ctxGet_ctxSet_other _ _ _ _ (by decide), ctxGet_ctxSet_other _ _ _ _ (by decide),
      ctxGet_ctxSet_other _ _ _ _ (by decide), ctxGet_ctxSet_other _ _ _ _ (by decide),
      ctxGet_ctxSet_other _ _ _ _ (by decide), ctxGet_ctxSet_other _ _ _ _ (by decide),
      ctxGet_ctxSet_same]

/-- Member access on a capability the sandbox nulled is a caught
`TypeError`, yielding `null`. -/
theorem evalAst_capability_member (vars : Ctx) (name fld : Str)
    (h : ctxGet (vmContext vars) name = some JSVal.undef) :
    evaluateExpressionAst (.member (.ident name) fld) vars = JSVal.null := by
  have hf : jsexprFuel (.member (.ident name) fld) = 2 := rfl
  simp only [evaluateExpressionAst, hf, evalJS, h]

/-- Calling a capability the sandbox nulled is a caught `TypeError`,
yielding `null` (whatever the argument expressions are). -/
theorem evalAst_capability_call (vars : Ctx) (name : Str) (args : List JSExpr)
    (h : ctxGet (vmContext vars) name = some JSVal.undef) :
    evaluateExpressionAst (.call (.ident name) args) vars = JSVal.null := by
  simp only [evaluateExpressionAst, evalJS]
  rw [show jsexprFuel (JSExpr.ident name) + jsexprFuelL args = jsexprFuelL args + 1 from by
    rw [show jsexprFuel (JSExpr.ident name) = 1 from rfl]
    omega]
  simp only [evalJS, h]
  cases hA : evalArgs (jsexprFuelL args + 1) args (vmContext vars) with
  | error e => simp [hA]
  | ok vs => simp [hA]

/-- C6 as amended: the sandbox context always binds `process`, `require`,
`Buffer` and `global` to `undefined` regardless of the caller's variables;
a bare reference to them evaluates to `undefined` (not `null`); any member
access on them or call of them is a caught failure yielding `null`; a
syntactically invalid expression yields `null`; and evaluation is a total
pure function — it never throws to the caller and performs no host I/O. -/
theorem C6_sandbox_isolation (vars : Ctx) (fld : Str) (args : List JSExpr) (s : Str)
    (hs : parseExpr s = none) :
    evaluateExpressionAst (.ident (strL "process")) vars = JSVal.undef ∧
    evaluateExpressionAst (.ident (strL "require")) vars = JSVal.undef ∧
    evaluateExpressionAst (.member (.ident (strL "process")) fld) vars = JSVal.null ∧
    evaluateExpressionAst (.member (.ident (strL "require")) fld) vars = JSVal.null ∧
    evaluateExpressionAst (.call (.ident (strL "process")) args) vars = JSVal.null ∧
    evaluateExpressionAst (.call (.ident (strL "require")) args) vars = JSVal.null ∧
    evaluateExpression s vars = JSVal.null := by
  obtain ⟨hp, hr, _, _⟩ := vmContext_nulled vars
  refine ⟨?_, ?_, ?_, ?_, ?_, ?_, ?_⟩
  · simp only [evaluateExpressionAst, show jsexprFuel (.ident (strL "process")) = 1 from rfl,
      evalJS, hp]
  · simp only [evaluateExpressionAst, show jsexprFuel (.ident (strL "require")) = 1 from rfl,
      evalJS, hr]
  · exact evalAst_capability_member vars _ fld hp
  · exact evalAst_capability_member vars _ fld hr
  · exact evalAst_capability_call vars _ args hp
  · exact evalAst_capability_call vars _ args hr
  · simp [evaluateExpression, hs]

/-- Witness for C6: a syntax error yields `null`, and `process.exit`
yields `null`, in the empty context. -/
theorem C6_sandbox_isolation_witness :
    evaluateExpression (strL "((;") [] = JSVal.null ∧
    evaluateExpressionAst (.member (.ident (strL "process")) (strL "exit")) [] = JSVal.null := by
  have h := C6_sandbox_isolation [] (strL "exit") [] (strL "((;") rfl
  exact ⟨h.2.2.2.2.2.2, h.2.2.1⟩

/-- Any matcher continuation is a suffix of the input. -/
theorem runF_suffix : ∀ (f : Nat) (re : Re) (s : Str) (cp : Caps) (r : Str × Caps),
    r ∈ runF f re s cp → r.1 <:+ s := by
  intro f
  induction f with
  | zero =>
    intro re s cp r hr
    simp [runF] at hr
  | succ n ih =>
    intro re s cp r hr
    cases re with
    | eps =>
      simp only [runF, List.mem_singleton] at hr
      simp [hr]
    | lit c =>
      simp only [runF] at hr
      cases s with
      | nil => simp at hr
      | cons c' t =>
        by_cases h : c' = c
        · simp only [if_pos h, List.mem_singleton] at hr
          simp [hr, List.suffix_cons]
        · simp [if_neg h] at hr
    | cls p =>
      simp only [runF] at hr
      cases s with
      | nil => simp at hr
      | cons c' t =>
        by_cases h : p c' = true
        · simp only [if_pos h, List.mem_singleton] at hr
          simp [hr, List.suffix_cons]
        · simp [if_neg h] at hr
    | seq a b =>
      simp only [runF, List.mem_flatMap] at hr
      obtain ⟨r1, h1, h2⟩ := hr
      exact (ih b r1.1 r1.2 r h2).trans (ih a s cp r1 h1)
    | alt a b =>
      simp only [runF, List.mem_append] at hr
      rcases hr with h | h
      · exact ih a s cp r h
      · exact ih b s cp r h
    | opt' lz a =>
      simp only [runF] at hr
      cases lz with
      | true =>
        rw [if_pos rfl] at hr
        rcases List.mem_cons.mp hr with h | h
        · simp [h]
        · exact ih a s cp r h
      | false =>
        rw [if_neg Bool.false_ne_true] at hr
        rcases List.mem_append.mp hr with h | h
        · exact ih a s cp r h
        · simp [List.mem_singleton.mp h]
    | star' lz a =>
      simp only [runF] at hr
      have core : ∀ r', r' ∈ (runF n a s cp).flatMap (fun r1 =>
          if r1.1.length < s.length then runF n (.star' lz a) r1.1 r1.2 else []) →
          r'.1 <:+ s := by
        intro r' hm
        simp only [List.mem_flatMap] at hm
        obtain ⟨r1, h1, h2⟩ := hm
        split at h2
        · exact (ih (.star' lz a) r1.1 r1.2 r' h2).trans (ih a s cp r1 h1)
        · simp at h2
      cases lz with
      | true =>
        rw [if_pos rfl] at hr
        rcases List.mem_cons.mp hr with h | h
        · simp [h]
        · exact core r h
      | false =>
        rw [if_neg Bool.false_ne_true] at hr
        rcases List.mem_append.mp hr with h | h
        · exact core r h
        · simp [List.mem_singleton.mp h]
    | group i a =>
      simp only [runF, List.mem_map] at hr
      obtain ⟨r1, h1, h2⟩ := hr
      have := ih a s cp r1 h1
      rw [← h2]
      exact this
    | look a =>
      simp only [runF] at hr
      split at hr
      · simp at hr
      · simp only [List.mem_singleton] at hr
        simp [hr]

/-- A match of a regex whose first two atoms are literals forces them at
the head of the input. -/
theorem runF_seq2_head (f : Nat) (c1 c2 : Char) (rest : Re) (s : Str) (cp : Caps)
    (r : Str × Caps) (hr : r ∈ runF f (.seq (.lit c1) (.seq (.lit c2) rest)) s cp) :
    ∃ u, s = c1 :: c2 :: u := by
  cases f with
  | zero => simp [runF] at hr
  | succ n =>
    simp only [runF, List.mem_flatMap] at hr
    obtain ⟨r1, h1, h2⟩ := hr
    cases n with
    | zero => simp [runF] at h1
    | succ m =>
      cases s with
      | nil => simp [runF] at h1
      | cons c' t =>
        simp only [runF] at h1
        by_cases h : c' = c1
        · simp only [if_pos h, List.mem_singleton] at h1
          subst h
          rw [h1] at h2
          simp only [runF, List.mem_flatMap] at h2
          obtain ⟨r2, h3, _⟩ := h2
          cases m with
          | zero => simp [runF] at h3
          | succ k =>
            cases t with
            | nil => simp [runF] at h3
            | cons c'' u =>
              simp only [runF] at h3
              by_cases h' : c'' = c2
              · exact ⟨u, by rw [h']⟩
              · simp [if_neg h'] at h3
        · simp [if_neg h] at h1

/-- A suffix that starts with the pattern witnesses `includes`. -/
theorem containsSub_of_suffix {t s pat : Str} (ht : t <:+ s)
    (h : startsWithStr t pat = true) : containsSub s pat = true := by
  induction s with
  | nil =>
    have hte : t = [] := List.suffix_nil.mp ht
    subst hte
    cases pat with
    | nil => rfl
    | cons p pt => simp [startsWithStr] at h
  | cons c s' ih =>
    rcases List.suffix_cons_iff.mp ht with h1 | h1
    · subst h1
      simp [containsSub, h]
    · simp [containsSub, ih h1]

/-- A match of the backtick-escape regex exhibits `{{` inside the input. -/
theorem runF_quotedVar_brace (f : Nat) (s : Str) (cp : Caps) (r : Str × Caps)
    (hr : r ∈ runF f quotedVarRegex s cp) :
    ∃ t, t <:+ s ∧ startsWithStr t (strL "\x7b\x7b") = true := by
  cases f with
  | zero => simp [runF] at hr
  | succ n =>
    rw [show quotedVarRegex = .seq (.lit '`')
      (.seq (.star' false spaceCls)
        (.seq (.lit '{') (.seq (.lit '{')
          (seqL [.group 1 (.star' true dotCh), .lit '}', .lit '}', .star' false spaceCls,
                 .lit '`'])))) from rfl] at hr
    simp only [runF, List.mem_flatMap] at hr
    obtain ⟨r1, h1, h2⟩ := hr
    cases n with
    | zero => simp [runF] at h1
    | succ m =>
      cases s with
      | nil => simp [runF] at h1
      | cons c' t0 =>
        simp only [runF] at h1
        by_cases h : c' = '`'
        · simp only [if_pos h, List.mem_singleton] at h1
          rw [h1] at h2
          cases m with
          | zero => simp [runF] at h2
          | succ k =>
            simp only [runF, List.mem_flatMap] at h2
            obtain ⟨r2, h3, h4⟩ := h2
            have hsuf : r2.1 <:+ t0 :=
              runF_suffix (k + 1) (.star' false spaceCls) t0 cp r2 (by simpa [runF] using h3)
            have h4' : r ∈ runF (k + 1) (.seq (.lit '{') (.seq (.lit '{')
                (seqL [.group 1 (.star' true dotCh), .lit '}', .lit '}',
                       .star' false spaceCls, .lit '`']))) r2.1 r2.2 := by
              simp only [runF, List.mem_flatMap]
              exact h4
            obtain ⟨u, hu⟩ := runF_seq2_head _ _ _ _ _ _ _ h4'
            refine ⟨r2.1, hsuf.trans (List.suffix_cons c' t0), ?_⟩
            rw [hu]
            simp [startsWithStr, strL]
        · simp [if_neg h] at h1

/-- `replaceAllCore` is the identity (with a clear flag) when the regex
matches at no suffix of the input. -/
theorem replaceAllCore_id (re : Re) (nc : Nat) (g : Str → Caps → Str × Bool) :
    ∀ (fuel : Nat) (s : Str),
      (∀ t, t <:+ s → reRun re nc t = []) →
      replaceAllCore re nc g fuel s = (s, false) := by
  intro fuel
  induction fuel with
  | zero => intro s _; rfl
  | succ n ih =>
    intro s h
    simp only [replaceAllCore]
    rw [h s (List.suffix_refl s)]
    simp only [List.head?]
    cases s with
    | nil => rfl
    | cons c t =>
      show (c :: (replaceAllCore re nc g n t).1, (replaceAllCore re nc g n t).2) = (c :: t, false)
      rw [ih t (fun t' ht' => h t' (ht'.trans (List.suffix_cons c t)))]

/-- A regex opening with the literal `{{` matches nowhere in content
without `{{`. -/
theorem reRun_braceHeaded_empty (rest : Re) (nc : Nat) {s : Str}
    (hs : containsSub s (strL "\x7b\x7b") = false) :
    ∀ t, t <:+ s → reRun (.seq (.lit '{') (.seq (.lit '{') rest)) nc t = [] := by
  intro t ht
  cases hh : reRun (.seq (.lit '{') (.seq (.lit '{') rest)) nc t with
  | nil => rfl
  | cons r l =>
    exfalso
    have hr : r ∈ reRun (.seq (.lit '{') (.seq (.lit '{') rest)) nc t := by
      rw [hh]; exact List.mem_cons_self r l
    obtain ⟨u, hu⟩ := runF_seq2_head _ _ _ _ _ _ _ hr
    have : containsSub s (strL "\x7b\x7b") = true := by
      refine containsSub_of_suffix ht ?_
      rw [hu]
      simp [startsWithStr, strL]
    rw [hs] at this
    exact Bool.noConfusion this

/-- `replace` with a `{{`-headed regex is the identity on content without
`{{`. -/
theorem replaceAll_braceHeaded_id (rest : Re) (nc : Nat) (g : Str → Caps → Str) (s : Str)
    (hs : containsSub s (strL "\x7b\x7b") = false) :
    replaceAll (.seq (.lit '{') (.seq (.lit '{') rest)) nc g s = s := by
  unfold replaceAll
  rw [replaceAllCore_id _ _ _ _ _ (reRun_braceHeaded_empty rest nc hs)]

/-- Flag-reporting variant of `replaceAll_braceHeaded_id`. -/
theorem replaceAllFlag_braceHeaded_id (rest : Re) (nc : Nat) (g : Str → Caps → Str × Bool)
    (s : Str) (hs : containsSub s (strL "\x7b\x7b") = false) :
    replaceAllFlag (.seq (.lit '{') (.seq (.lit '{') rest)) nc g s = (s, false) := by
  unfold replaceAllFlag
  rw [replaceAllCore_id _ _ _ _ _ (reRun_braceHeaded_empty rest nc hs)]

/-- The backtick-escape restoration is the identity on content without
`{{`. -/
theorem replaceAll_quotedVar_id (g : Str → Caps → Str) (s : Str)
    (hs : containsSub s (strL "\x7b\x7b") = false) :
    replaceAll quotedVarRegex 1 g s = s := by
  unfold replaceAll
  rw [replaceAllCore_id]
  intro t ht
  cases hh : reRun quotedVarRegex 1 t with
  | nil => rfl
  | cons r l =>
    exfalso
    have hr : r ∈ reRun quotedVarRegex 1 t := by
      rw [hh]; exact List.mem_cons_self r l
    obtain ⟨u, hu, hsw⟩ := runF_quotedVar_brace _ _ _ _ hr
    have : containsSub s (strL "\x7b\x7b") = true := containsSub_of_suffix (hu.trans ht) hsw
    rw [hs] at this
    exact Bool.noConfusion this

/-- The loop phase is the identity on content without `{{`. -/
theorem processLoops_id (pv : Str → Ctx → Str) (content : Str) (vars : Ctx)
    (hs : containsSub content (strL "\x7b\x7b") = false) :
    processLoops pv content vars = content := by
  unfold processLoops
  have h1 : ∀ g, replaceAll forKeyValueRegex 5 g content = content := fun g =>
    replaceAll_braceHeaded_id _ _ _ _ hs
  have h2 : ∀ g, replaceAll forRegex 4 g content = content := fun g =>
    replaceAll_braceHeaded_id _ _ _ _ hs
  simp only [h1, h2]

/-- The conditional phase is the identity on content without `{{`. -/
theorem processConditionals_id (content : Str) (vars : Ctx)
    (hs : containsSub content (strL "\x7b\x7b") = false) :
    processConditionals content vars = content := by
  have h1 : ∀ g, replaceAllFlag ifRegex 4 g content = (content, false) := fun g =>
    replaceAllFlag_braceHeaded_id _ _ _ _ hs
  have hall : ∀ r, condAux vars r content = content := by
    intro r
    cases r with
    | zero => rfl
    | succ n =>
      simp only [condAux, h1]
      rw [if_neg Bool.false_ne_true]
  exact hall 20

/-- The user-function phase is the identity on content without `{{`. -/
theorem processUserFunctions_id (feats : Feats) (content : Str) (vars : Ctx)
    (hs : containsSub content (strL "\x7b\x7b") = false) :
    processUserFunctions feats content vars = content := by
  unfold processUserFunctions
  exact replaceAll_braceHeaded_id _ _ _ _ hs

/-- The simple-variable substitution fold is the identity on content
without `{{`. -/
theorem simpleVarFold_id (vars : Ctx) (s : Str)
    (hs : containsSub s (strL "\x7b\x7b") = false) :
    vars.foldl
      (fun acc e =>
        if unsafeKeys.contains e.1 then acc
        else replaceAll (simpleVarRegex e.1) 0 (fun _ _ => safeToString e.2) acc)
      s = s := by
  induction vars with
  | nil => rfl
  | cons e t ih =>
    simp only [List.foldl_cons]
    have hstep : (if unsafeKeys.contains e.1 then s
        else replaceAll (simpleVarRegex e.1) 0 (fun _ _ => safeToString e.2) s) = s := by
      split
      · rfl
      · exact replaceAll_braceHeaded_id _ _ _ _ hs
    rw [hstep, ih]

/-- The variable/expression phase is the identity on content without
`{{`. -/
theorem processVariablesAndExpressions_id (content : Str) (vars : Ctx)
    (hs : containsSub content (strL "\x7b\x7b") = false) :
    processVariablesAndExpressions content vars = content := by
  unfold processVariablesAndExpressions
  have hq : ∀ g, replaceAll quotedVarRegex 1 g content = content := fun g =>
    replaceAll_quotedVar_id g content hs
  have ho : ∀ (g : Str → Caps → Str), replaceAll objectPropertyRegex 1 g content = content :=
    fun g => replaceAll_braceHeaded_id _ _ _ _ hs
  have he : ∀ (g : Str → Caps → Str), replaceAll expressionRegex 1 g content = content :=
    fun g => replaceAll_braceHeaded_id _ _ _ _ hs
  simp only [hq, ho, simpleVarFold_id vars content hs, he]

/-- One full pass of the pipeline is the identity on content without
`{{`. -/
theorem runPhases_id (pv : Str → Ctx → Str) (feats : Feats) (content : Str) (vars : Ctx)
    (hs : containsSub content (strL "\x7b\x7b") = false) :
    runPhases pv feats content vars = content := by
  unfold runPhases
  rw [processLoops_id _ _ _ hs, processConditionals_id _ _ hs,
    processUserFunctions_id _ _ _ hs, processVariablesAndExpressions_id _ _ hs]

/-- C9: the variable pipeline is the identity on any content containing no
`{{` substring — each of the four phase functions leaves such content
byte-for-byte unchanged, for every variable context and feature registry,
and hence so does `processVariables` (plain text, block markers and
include directives pass through the variable pipeline untouched). -/
theorem C9_phases_identity_without_braces (pv : Str → Ctx → Str) (feats : Feats)
    (vars req : Ctx) (content : Str) (fuel : Nat)
    (hs : containsSub content (strL "\x7b\x7b") = false) :
    processLoops pv content vars = content ∧
    processConditionals content vars = content ∧
    processUserFunctions feats content vars = content ∧
    processVariablesAndExpressions content vars = content ∧
    processVariablesF fuel feats content req = content := by
  refine ⟨processLoops_id pv content vars hs, processConditionals_id content vars hs,
    processUserFunctions_id feats content vars hs,
    processVariablesAndExpressions_id content vars hs, ?_⟩
  cases fuel with
  | zero => rfl
  | succ n =>
    show (processIterativelyWith (fun c2 r2 => processVariablesF n feats c2 r2) feats content
      (ctxMerge feats.vars req)).1 = content
    unfold processIterativelyWith
    show (iterAux _ (9 + 1) content 0).1 = content
    simp only [iterAux]
    rw [runPhases_id _ _ _ _ hs]
    simp

/-- Witness for C9: plain text with a block marker and an include
directive (but no `{{`) passes through every phase and the full pipeline
unchanged. -/
theorem C9_phases_identity_without_braces_witness :
    processVariablesF 3 ⟨[], []⟩ (strL "hello [!nav] world [include x.html] {end}") [] =
      strL "hello [!nav] world [include x.html] {end}" :=
  (C9_phases_identity_without_braces (fun c _ => c) ⟨[], []⟩ [] []
    (strL "hello [!nav] world [include x.html] {end}") 3 (by decide)).2.2.2.2

/-- `Set.add` only grows the registry. -/
theorem setAdd_mono (l : List Str) (y x : Str) (hx : x ∈ l) : x ∈ setAdd l y := by
  unfold setAdd
  split
  · exact hx
  · exact List.mem_append_left _ hx

/-- State frame of one splice step: the compilation flag is preserved,
the registry is untouched outside compilation mode, and it only grows. -/
theorem includeStep_state (fs : FileSys)
    (recur : Str → Str → List Str → IncludeState → Str × IncludeState × List Str)
    (content currentFile : Str) (stk : List Str)
    (hrec : ∀ c cf' stk' st',
      (recur c cf' stk' st').2.1.isCompilationMode = st'.isCompilationMode ∧
      (st'.isCompilationMode = false →
        (recur c cf' stk' st').2.1.includedFiles = st'.includedFiles) ∧
      (∀ x ∈ st'.includedFiles, x ∈ (recur c cf' stk' st').2.1.includedFiles))
    (acc : List Str × Nat × IncludeState × List Str) (m : Nat × Str × Str) :
    (includeStep fs recur content currentFile stk acc m).2.2.1.isCompilationMode =
      acc.2.2.1.isCompilationMode ∧
    (acc.2.2.1.isCompilationMode = false →
      (includeStep fs recur content currentFile stk acc m).2.2.1.includedFiles =
        acc.2.2.1.includedFiles) ∧
    (∀ x ∈ acc.2.2.1.includedFiles,
      x ∈ (includeStep fs recur content currentFile stk acc m).2.2.1.includedFiles) := by
  simp only [includeStep]
  split
  · exact ⟨rfl, fun _ => rfl, fun x hx => hx⟩
  · split
    · exact ⟨rfl, fun _ => rfl, fun x hx => hx⟩
    · split
      · exact ⟨rfl, fun _ => rfl, fun x hx => hx⟩
      · split
        · exact ⟨rfl, fun _ => rfl, fun x hx => hx⟩
        · rename_i ic hic
          split
          · rename_i hmode
            obtain ⟨ha, hb, hc⟩ := hrec ic
              (pRelative templatesAbsDir (resolveIncludePath currentFile m.2.2))
              (stk ++ [resolveIncludePath currentFile m.2.2])
              ⟨setAdd acc.2.2.1.includedFiles
                  (pRelative templatesAbsDir (resolveIncludePath currentFile m.2.2)),
                acc.2.2.1.isCompilationMode⟩
            refine ⟨ha, ?_, ?_⟩
            · intro h
              rw [h] at hmode
              exact absurd hmode (by simp)
            · intro x hx
              exact hc x (setAdd_mono _ _ _ hx)
          · rename_i hmode
            obtain ⟨ha, hb, hc⟩ := hrec ic
              (pRelative templatesAbsDir (resolveIncludePath currentFile m.2.2))
              (stk ++ [resolveIncludePath currentFile m.2.2])
              acc.2.2.1
            exact ⟨ha, fun h => hb h, hc⟩

/-- The splice loop preserves the state frame of `includeStep_state`. -/
theorem includeStep_fold_state (fs : FileSys)
    (recur : Str → Str → List Str → IncludeState → Str × IncludeState × List Str)
    (content currentFile : Str) (stk : List Str)
    (hrec : ∀ c cf' stk' st',
      (recur c cf' stk' st').2.1.isCompilationMode = st'.isCompilationMode ∧
      (st'.isCompilationMode = false →
        (recur c cf' stk' st').2.1.includedFiles = st'.includedFiles) ∧
      (∀ x ∈ st'.includedFiles, x ∈ (recur c cf' stk' st').2.1.includedFiles)) :
    ∀ (ms : List (Nat × Str × Str)) (acc : List Str × Nat × IncludeState × List Str),
      (ms.foldl (includeStep fs recur content currentFile stk) acc).2.2.1.isCompilationMode =
        acc.2.2.1.isCompilationMode ∧
      (acc.2.2.1.isCompilationMode = false →
        (ms.foldl (includeStep fs recur content currentFile stk) acc).2.2.1.includedFiles =
          acc.2.2.1.includedFiles) ∧
      (∀ x ∈ acc.2.2.1.includedFiles,
        x ∈ (ms.foldl (includeStep fs recur content currentFile stk) acc).2.2.1.includedFiles)
  | [], acc => ⟨rfl, fun _ => rfl, fun _ hx => hx⟩
  | m :: ms, acc => by
    obtain ⟨sa, sb, sc⟩ := includeStep_state fs recur content currentFile stk hrec acc m
    obtain ⟨fa, fb, fc⟩ := includeStep_fold_state fs recur content currentFile stk hrec ms
      (includeStep fs recur content currentFile stk acc m)
    refine ⟨?_, ?_, ?_⟩
    · simpa [List.foldl_cons, sa] using fa
    · intro h
      have hs := sb h
      have hf := fb (by rw [sa]; exact h)
      simpa [List.foldl_cons, hs] using hf
    · intro x hx
      exact fc x (sc x hx)

/-- `processIncludes` preserves the compilation flag, leaves the registry
untouched outside compilation mode, and only ever adds to it. -/
theorem processIncludes_state_frame (fs : FileSys) :
    ∀ (fuel : Nat) (content currentFile : Str) (stk : List Str) (st : IncludeState),
      (processIncludesF fs fuel content currentFile stk st).2.1.isCompilationMode =
        st.isCompilationMode ∧
      (st.isCompilationMode = false →
        (processIncludesF fs fuel content currentFile stk st).2.1.includedFiles =
          st.includedFiles) ∧
      (∀ x ∈ st.includedFiles,
        x ∈ (processIncludesF fs fuel content currentFile stk st).2.1.includedFiles)
  | 0, _, _, _, _ => ⟨rfl, fun _ => rfl, fun _ hx => hx⟩
  | fuel + 1, content, currentFile, stk, st => by
    have hrec : ∀ c cf' stk' st',
        (processIncludesF fs fuel c cf' stk' st').2.1.isCompilationMode =
          st'.isCompilationMode ∧
        (st'.isCompilationMode = false →
          (processIncludesF fs fuel c cf' stk' st').2.1.includedFiles =
            st'.includedFiles) ∧
        (∀ x ∈ st'.includedFiles,
          x ∈ (processIncludesF fs fuel c cf' stk' st').2.1.includedFiles) :=
      fun c cf' stk' st' => processIncludes_state_frame fs fuel c cf' stk' st'
    simp only [processIncludesF]
    split
    · exact ⟨rfl, fun _ => rfl, fun _ hx => hx⟩
    · exact includeStep_fold_state fs
        (fun c cf stk' s => processIncludesF fs fuel c cf stk' s)
        content currentFile stk hrec
        (collectIncludeMatches content).reverse ([], content.length, st, [])

/-- C10 (implicit, frame effect): `getIncludedFiles` merely reads the
registry (the source returns `new Set(this.includedFiles)`, a fresh copy,
so the caller cannot alias the registry; in the value-semantics model the
call is the pure projection and leaves the state unchanged).  The registry
itself changes only through `setCompilationMode(true)` — which clears it —
while `setCompilationMode(false)` keeps it, and through successful
includes processed while compilation mode is active: a `processIncludes`
run preserves the compilation flag, leaves the registry exactly as it was
whenever compilation mode is off, and otherwise only ever adds entries. -/
theorem C10_registry_frame (fs : FileSys) (fuel : Nat)
    (content currentFile : Str) (stk : List Str) (st : IncludeState) :
    getIncludedFiles st = st.includedFiles ∧
    getIncludedFiles (setCompilationMode true st) = [] ∧
    getIncludedFiles (setCompilationMode false st) = getIncludedFiles st ∧
    (processIncludesF fs fuel content currentFile stk st).2.1.isCompilationMode =
      st.isCompilationMode ∧
    (st.isCompilationMode = false →
      getIncludedFiles (processIncludesF fs fuel content currentFile stk st).2.1 =
        getIncludedFiles st) ∧
    (∀ x ∈ getIncludedFiles st,
      x ∈ getIncludedFiles (processIncludesF fs fuel content currentFile stk st).2.1) := by
  obtain ⟨ha, hb, hc⟩ := processIncludes_state_frame fs fuel content currentFile stk st
  exact ⟨rfl, rfl, rfl, ha, fun h => hb h, hc⟩

/-- Witness for C10 on the concrete two-file system: processing `a.html`
in compilation mode keeps the flag, and a pre-existing registry entry
survives the run. -/
theorem C10_registry_frame_witness :
    (processIncludesF fsAB 5 (strL "x") (strL "a.html") [] ⟨[strL "pre"], true⟩).2.1.isCompilationMode = true ∧
    strL "pre" ∈ getIncludedFiles
      (processIncludesF fsAB 5 (strL "x") (strL "a.html") [] ⟨[strL "pre"], true⟩).2.1 := by
  obtain ⟨ha, _, _, hd, _, hf⟩ :=
    C10_registry_frame fsAB 5 (strL "x") (strL "a.html") [] ⟨[strL "pre"], true⟩
  exact ⟨hd, hf (strL "pre") (by decide)⟩

/-- `idxOfAux` on a one-character pattern finds nothing when the character
does not occur in the suffix. -/
theorem idxOfAux_single_none (c : Char) :
    ∀ (f : Nat) (s : Str) (pos : Nat), c ∉ s → idxOfAux [c] f s pos = none
  | 0, _, _, _ => rfl
  | _ + 1, [], _, _ => rfl
  | f + 1, x :: t, pos, h => by
    have hx : (x == c) = false := by
      simp only [beq_eq_false_iff_ne, ne_eq]
      exact fun he => h (he ▸ List.mem_cons_self x t)
    simp only [idxOfAux, startsWithStr, hx, Bool.false_and]
    rw [if_neg Bool.false_ne_true]
    exact idxOfAux_single_none c f t (pos + 1) (fun hm => h (List.mem_cons_of_mem _ hm))

/-- With enough fuel, `idxOfAux` on a one-character pattern succeeds when
the character occurs in the suffix. -/
theorem idxOfAux_single_some (c : Char) :
    ∀ (f : Nat) (s : Str) (pos : Nat), c ∈ s → s.length < f →
      (idxOfAux [c] f s pos).isSome = true
  | 0, _, _, _, hf => absurd hf (Nat.not_lt_zero _)
  | _ + 1, [], _, h, _ => absurd h (List.not_mem_nil c)
  | f + 1, x :: t, pos, h, hf => by
    by_cases hx : x = c
    · simp [idxOfAux, startsWithStr, hx]
    · have hx' : (x == c) = false := by simp [hx]
      simp only [idxOfAux, startsWithStr, hx', Bool.false_and]
      rw [if_neg Bool.false_ne_true]
      have hm : c ∈ t := (List.mem_cons.mp h).resolve_left (fun he => hx he.symm)
      exact idxOfAux_single_some c f t (pos + 1) hm (Nat.lt_of_succ_lt_succ hf)

/-- A failed `indexOf("]", i)` means no `]` occurs from position `i` on. -/
theorem no_rbracket_of_idxOf_none (content : Str) (i : Nat)
    (h : idxOf content (strL "]") i = none) : ']' ∉ content.drop i := by
  intro hm
  have hs := idxOfAux_single_some ']' (content.length + 1) (content.drop i) i hm
    (Nat.lt_succ_of_le (by rw [List.length_drop]; exact Nat.sub_le _ _))
  unfold idxOf at h
  have hpat : strL "]" = [']'] := rfl
  rw [hpat] at h
  rw [h] at hs
  exact Bool.noConfusion hs

/-- Absence of `]` in a suffix persists in later suffixes. -/
theorem no_rbracket_mono {content : Str} {i j : Nat} (hij : i ≤ j)
    (h : ']' ∉ content.drop i) : ']' ∉ content.drop j := by
  intro hm
  apply h
  have h2 : (content.drop i).drop (j - i) = content.drop j := by
    rw [List.drop_drop]
    congr 1
    omega
  rw [← h2] at hm
  exact List.mem_of_mem_drop hm

/-- `parseTag` reports a missing bracket only when `indexOf` fails. -/
theorem parseTag_noBracket (content : Str) (i : Nat) (t : TagType) (line : Nat)
    (h : parseTag content i t line = .noBracket) : idxOf content (strL "]") i = none := by
  unfold parseTag at h
  cases hx : idxOf content (strL "]") i with
  | none => rfl
  | some e =>
    rw [hx] at h
    dsimp only at h
    split at h
    · exact ParseTagRes.noConfusion h
    · split at h
      · exact ParseTagRes.noConfusion h
      · exact ParseTagRes.noConfusion h

/-- Once no `]` remains, the non-aborting scan can only accumulate further
missing-bracket errors: filtered to the other kinds, it already equals the
current errors plus the unclosed-stack report. -/
theorem scanVFull_noBracket (content : Str) :
    ∀ (f i line : Nat) (stack : List (Str × Nat)) (errors : List StructErr),
      ']' ∉ content.drop i →
      (scanVFull content f i line stack errors).filter (fun e => !isMissingBracketErr e) =
        (errors ++ unclosedErrs stack).filter (fun e => !isMissingBracketErr e)
  | 0, _, _, _, _, _ => rfl
  | f + 1, i, line, stack, errors, h => by
    have h1 : ']' ∉ content.drop (i + 1) := no_rbracket_mono (Nat.le_succ i) h
    have hnone : idxOf content (strL "]") i = none := by
      unfold idxOf
      exact idxOfAux_single_none ']' _ _ _ h
    simp only [scanVFull]
    split
    · generalize (if (content.get? i).getD ' ' == '\n' then line + 1 else line) = L
      split
      · have hpt : parseTag content i .openT L = .noBracket := by
          unfold parseTag
          rw [hnone]
        rw [hpt]
        dsimp only
        rw [scanVFull_noBracket content f (i + 1) L stack
          (errors ++ [StructErr.missingBracket L TagType.openT]) h1]
        simp [List.filter_append, isMissingBracketErr]
      · split
        · have hpt : parseTag content i .closeT L = .noBracket := by
            unfold parseTag
            rw [hnone]
          rw [hpt]
          dsimp only
          rw [scanVFull_noBracket content f (i + 1) L stack
            (errors ++ [StructErr.missingBracket L TagType.closeT]) h1]
          simp [List.filter_append, isMissingBracketErr]
        · exact scanVFull_noBracket content f (i + 1) L stack errors h1
    · rfl

/-- The aborting scan and the non-aborting scan agree on every error kind
other than missing brackets. -/
theorem scanV_eq_full_filtered (content : Str) :
    ∀ (f i line : Nat) (stack : List (Str × Nat)) (errors : List StructErr),
      (scanV content f i line stack errors).filter (fun e => !isMissingBracketErr e) =
        (scanVFull content f i line stack errors).filter (fun e => !isMissingBracketErr e)
  | 0, _, _, _, _ => rfl
  | f + 1, i, line, stack, errors => by
    simp only [scanV, scanVFull]
    split
    · generalize (if (content.get? i).getD ' ' == '\n' then line + 1 else line) = L
      split
      · cases hpt : parseTag content i .openT L with
        | noBracket =>
          dsimp only
          have hnone := parseTag_noBracket content i .openT L hpt
          have hni : ']' ∉ content.drop i := no_rbracket_of_idxOf_none content i hnone
          have h1 : ']' ∉ content.drop (i + 1) := no_rbracket_mono (Nat.le_succ i) hni
          rw [scanVFull_noBracket content f (i + 1) L stack
            (errors ++ [StructErr.missingBracket L TagType.openT]) h1]
        | bad e2 err =>
          exact scanV_eq_full_filtered content f (e2 + 1) L stack (errors ++ [err])
        | okTag e2 name =>
          exact scanV_eq_full_filtered content f (e2 + 1) L ((name, L) :: stack) errors
      · split
        · cases hpt : parseTag content i .closeT L with
          | noBracket =>
            dsimp only
            have hnone := parseTag_noBracket content i .closeT L hpt
            have hni : ']' ∉ content.drop i := no_rbracket_of_idxOf_none content i hnone
            have h1 : ']' ∉ content.drop (i + 1) := no_rbracket_mono (Nat.le_succ i) hni
            rw [scanVFull_noBracket content f (i + 1) L stack
              (errors ++ [StructErr.missingBracket L TagType.closeT]) h1]
          | bad e2 err =>
            exact scanV_eq_full_filtered content f (e2 + 1) L stack (errors ++ [err])
          | okTag e2 name =>
            cases stack with
            | nil =>
              exact scanV_eq_full_filtered content f (e2 + 1) L []
                (errors ++ [StructErr.extraClose L name])
            | cons top rest =>
              dsimp only
              split
              · exact scanV_eq_full_filtered content f (e2 + 1) L rest errors
              · exact scanV_eq_full_filtered content f (e2 + 1) L (top :: rest)
                  (errors ++ [StructErr.mismatch L top.1 name])
        · exact scanV_eq_full_filtered content f (i + 1) L stack errors
    · rfl

/-- C8: for every input, `_validateTemplateStructure` collects every
structural error of the kinds the claim enumerates — name mismatch,
unmatched close tag, tags unclosed at end of input, and malformed tags
(empty name or invalid characters) — exactly as the never-aborting
reference scan does: the two agree on all errors other than
missing-closing-bracket reports.  (The source's early `break` on a tag
with no closing bracket can only drop later missing-bracket reports,
since no complete tag can form once no `]` remains; the unclosed-stack
errors are still appended after the `break`.) -/
theorem C8_validator_collects_all_enumerated_errors (content : Str) :
    (validateTemplateStructure content).filter (fun e => !isMissingBracketErr e) =
      (validateStructureFull content).filter (fun e => !isMissingBracketErr e) :=
  scanV_eq_full_filtered content (content.length + 1) 0 1 [] []
